import Mathlib

/-!
Shallow embedding of `image_converter.py` (einkframe), covering the palette
table construction (`make_palette_flat`, `make_palette_image`) and the core
error-diffusion quantizer (`clamp_u8`, `nearest_palette_index`, `add_error`,
`quantize_with_dither_strength`).

Numeric model: Python floats are embedded as rationals.  Every constant the
source manipulates (8-bit channel values, the Floyd-Steinberg sixteenths
`7/16, 3/16, 5/16, 1/16`, the clamp bounds) is dyadic, so `ℚ` carries the
source's arithmetic exactly.

The mutable locals of `quantize_with_dither_strength` (`buf`, `out_idx`) are
threaded as explicit state; the only fallible statement of the function, the
palette lookup `palette_rgb[pal_idx]`, is embedded in `Except`.
-/

namespace ImageConverter

attribute [local semireducible] Rat.mul Rat.inv Rat.add Rat.sub

/-- RGB triple; pixel colors and palette entries.  Channels are rationals
(the working buffer holds Python floats, palette entries are small naturals
embedded into the same carrier). -/
abbrev Color := ℚ × ℚ × ℚ

/-- Python `clamp_u8(value)`: `max(0.0, min(255.0, value))`. -/
def clamp_u8 (value : ℚ) : ℚ := max 0 (min 255 value)

/-- Squared RGB distance to a candidate palette entry, as computed in the
scan body of `nearest_palette_index`: `dr*dr + dg*dg + db*db`. -/
def sq_dist (r g b : ℚ) (p : Color) : ℚ :=
  (r - p.1) * (r - p.1) + (g - p.2.1) * (g - p.2.1) + (b - p.2.2) * (b - p.2.2)

/-- Comparison `dist < best_dist` where `best_dist` starts as
`float("inf")`; `none` models infinity, so any finite distance is strictly
below it. -/
def lt_best (dist : ℚ) : Option ℚ → Bool
  | none => true
  | some d => decide (dist < d)

/-- One iteration of `for i, (pr, pg, pb) in enumerate(palette_rgb)`:
`if dist < best_dist: best_dist = dist; best_idx = i`.  The scan state is
the pair `(best_dist, best_idx)`. -/
def nearest_step (r g b : ℚ) (st : Option ℚ × Nat) (ip : Nat × Color) : Option ℚ × Nat :=
  if lt_best (sq_dist r g b ip.2) st.1 then (some (sq_dist r g b ip.2), ip.1) else st

/-- Python `nearest_palette_index(r, g, b, palette_rgb)`: linear scan over
the enumerated palette, strict improvement (`<`) only, so the first entry
attaining the minimum keeps the index; `best_idx` starts at 0, hence an
empty palette yields 0 without error. -/
def nearest_palette_index (r g b : ℚ) (palette_rgb : List Color) : Nat :=
  (palette_rgb.enum.foldl (nearest_step r g b) (none, 0)).2

/-- Python `make_palette_flat(palette_rgb)`: extend `flat` with each color
in order, then pad with `[0, 0, 0] * (256 - len(palette_rgb))`.  Python
list repetition with a negative count yields `[]`, exactly as the truncated
subtraction `256 - length` does here. -/
def make_palette_flat (palette_rgb : List Color) : List ℚ :=
  (palette_rgb.flatMap fun c => [c.1, c.2.1, c.2.2]) ++
    (List.replicate (256 - palette_rgb.length) ([0, 0, 0] : List ℚ)).flatten

/-- Result of `make_palette_image`: a 1x1 "P"-mode PIL image; only the
palette data stored by `putpalette` is relevant to (and modelled for) this
code base. -/
structure PalImage where
  palette : List ℚ
deriving DecidableEq

/-- Python `make_palette_image(palette_rgb)`: builds the same flat list as
`make_palette_flat` (the body is duplicated inline in the source) and
installs it on a fresh 1x1 "P" image.  `Image.new`/`putpalette` are PIL
(external collaborator) calls; no validation is performed by this module. -/
def make_palette_image (palette_rgb : List Color) : PalImage :=
  { palette :=
      (palette_rgb.flatMap fun c => [c.1, c.2.1, c.2.2]) ++
        (List.replicate (256 - palette_rgb.length) ([0, 0, 0] : List ℚ)).flatten }

/-- Decoded RGB input image: `img_rgb.size = (width, height)` and
`img_rgb.getdata()` as a row-major pixel list of 8-bit channel triples. -/
structure InImage where
  width : Nat
  height : Nat
  data : List (Nat × Nat × Nat)
deriving DecidableEq

/-- Output of the quantizer: `Image.new("P", (width, height))` carrying the
flat palette installed by `putpalette` and the index list from `putdata`. -/
structure OutImage where
  width : Nat
  height : Nat
  palette : List ℚ
  data : List Nat
deriving DecidableEq

/-- Runtime failure of the embedded Python.  The only statement in
`quantize_with_dither_strength` that can raise is the palette lookup
`palette_rgb[pal_idx]` (an `IndexError` when the palette is empty); every
list subscript on `buf`/`out_idx` is in range. -/
inductive PyErr where
  | indexError
deriving DecidableEq

/-- Mutable locals of `quantize_with_dither_strength`: the decoded pixel
list `data` (read during initialization, never written), the flat float
working buffer `buf` (stride 3 per pixel) and the output index list
`out_idx`. -/
structure QState where
  data : List (Nat × Nat × Nat)
  buf : List ℚ
  out_idx : List Nat
deriving DecidableEq

/-- Channel `c` (0 = red, 1 = green, 2 = blue) of pixel `pi` in a flat
working buffer: `buf[pi*3 + c]`. -/
def buf_chan (buf : List ℚ) (pi c : Nat) : ℚ := buf.getD (pi * 3 + c) 0

/-- Channel selector on a color triple (0 = red, 1 = green, 2 = blue). -/
def chanv (p : Color) : Nat → ℚ
  | 0 => p.1
  | 1 => p.2.1
  | _ => p.2.2

/-- Body of the buffer-initialization loop for one enumerated pixel
`p = (i, (r, g, b))`: `buf[i*3] = float(r); buf[i*3+1] = float(g);
buf[i*3+2] = float(b)`. -/
def init_px (buf : List ℚ) (p : Nat × Nat × Nat × Nat) : List ℚ :=
  ((buf.set (p.1 * 3) (p.2.1 : ℚ)).set (p.1 * 3 + 1) (p.2.2.1 : ℚ)).set
    (p.1 * 3 + 2) (p.2.2.2 : ℚ)

/-- Python lines 76-83: `buf = [0.0] * (px_count * 3)` then
`for i, (r, g, b) in enumerate(data): buf[i*3] = float(r); ...`. -/
def init_buf (px_count : Nat) (data : List (Nat × Nat × Nat)) : List ℚ :=
  data.enum.foldl init_px (List.replicate (px_count * 3) 0)

/-- Python `add_error(x, y, er, eg, eb, factor)` (closure over `width`,
`height`, `buf`): drop the write silently when the target coordinates are
out of bounds, otherwise clamp-add `e * factor` into the three channels of
the flat buffer at `bi = (y*width + x)*3`.  Coordinates are integers: the
diffusion targets include `x - 1`, which Python evaluates as a (possibly
negative) `int`. -/
def add_error (width height : Nat) (buf : List ℚ) (x y : ℤ) (er eg eb factor : ℚ) : List ℚ :=
  if x < 0 ∨ y < 0 ∨ (width : ℤ) ≤ x ∨ (height : ℤ) ≤ y then buf
  else
    let bi := (y.toNat * width + x.toNat) * 3
    let buf1 := buf.set bi (clamp_u8 (buf.getD bi 0 + er * factor))
    let buf2 := buf1.set (bi + 1) (clamp_u8 (buf1.getD (bi + 1) 0 + eg * factor))
    buf2.set (bi + 2) (clamp_u8 (buf2.getD (bi + 2) 0 + eb * factor))

/-- Body of the double raster loop of `quantize_with_dither_strength` for
the pixel at `(x, y)`: read the (possibly error-adjusted) color from `buf`,
pick the nearest palette index, record it in `out_idx`, and unless
`strength <= 0` diffuse the strength-scaled residual to the four
Floyd-Steinberg neighbors.  `palette_rgb[pal_idx]` is the one fallible
subscript. -/
def process_pixel (width height : Nat) (palette_rgb : List Color) (strength : ℚ)
    (x y : Nat) (s : QState) : Except PyErr QState :=
  let pi := y * width + x
  let bi := pi * 3
  let old_r := s.buf.getD bi 0
  let old_g := s.buf.getD (bi + 1) 0
  let old_b := s.buf.getD (bi + 2) 0
  let pal_idx := nearest_palette_index old_r old_g old_b palette_rgb
  match palette_rgb[pal_idx]? with
  | none => .error .indexError
  | some c =>
    let out_idx := s.out_idx.set pi pal_idx
    if strength ≤ 0 then .ok ⟨s.data, s.buf, out_idx⟩
    else
      let er := (old_r - c.1) * strength
      let eg := (old_g - c.2.1) * strength
      let eb := (old_b - c.2.2) * strength
      let buf := add_error width height s.buf ((x : ℤ) + 1) (y : ℤ) er eg eb (7 / 16)
      let buf := add_error width height buf ((x : ℤ) - 1) ((y : ℤ) + 1) er eg eb (3 / 16)
      let buf := add_error width height buf (x : ℤ) ((y : ℤ) + 1) er eg eb (5 / 16)
      let buf := add_error width height buf ((x : ℤ) + 1) ((y : ℤ) + 1) er eg eb (1 / 16)
      .ok ⟨s.data, buf, out_idx⟩

/-- Coordinates visited by `for y in range(height): for x in range(width)`,
in raster order. -/
def raster_coords (width height : Nat) : List (Nat × Nat) :=
  (List.range height).flatMap fun y => (List.range width).map fun x => (x, y)

/-- Run `process_pixel` over a list of coordinates, threading the state and
propagating the first raised error (the raster loop instantiates this with
`raster_coords`). -/
def run_pixels (width height : Nat) (palette_rgb : List Color) (strength : ℚ)
    (ps : List (Nat × Nat)) (s : QState) : Except PyErr QState :=
  ps.foldlM (fun s p => process_pixel width height palette_rgb strength p.1 p.2 s) s

/-- Python `quantize_with_dither_strength(img_rgb, palette_rgb,
dither_strength)`: copy the pixels into the flat float buffer, clamp the
strength into `[0, 1]`, scan all pixels in raster order, and package the
index list as a "P"-mode image carrying `make_palette_flat(palette_rgb)`. -/
def quantize_with_dither_strength (img_rgb : InImage) (palette_rgb : List Color)
    (dither_strength : ℚ) : Except PyErr OutImage :=
  let width := img_rgb.width
  let height := img_rgb.height
  let px_count := width * height
  let strength := max 0 (min 1 dither_strength)
  match run_pixels width height palette_rgb strength (raster_coords width height)
      ⟨img_rgb.data, init_buf px_count img_rgb.data, List.replicate px_count 0⟩ with
  | .error e => .error e
  | .ok s => .ok ⟨width, height, make_palette_flat palette_rgb, s.out_idx⟩

/-- Initial loop state of `quantize_with_dither_strength` on `img_rgb`: the
decoded pixels, the freshly initialized working buffer, and
`out_idx = [0] * px_count`. -/
def init_state (img_rgb : InImage) : QState :=
  ⟨img_rgb.data, init_buf (img_rgb.width * img_rgb.height) img_rgb.data,
    List.replicate (img_rgb.width * img_rgb.height) 0⟩

/-- Index list produced by the quantizer, `[]` on an error; convenience
accessor for stating whole-run properties. -/
def quant_indices (img_rgb : InImage) (palette_rgb : List Color) (dither_strength : ℚ) :
    List Nat :=
  match quantize_with_dither_strength img_rgb palette_rgb dither_strength with
  | .ok o => o.data
  | .error _ => []

/-- Number of pixels whose output index at strength `s` deviates from the
strength-0 baseline (spec section 8, "monotonic continuity"). -/
def deviation_count (img_rgb : InImage) (palette_rgb : List Color) (s : ℚ) : Nat :=
  ((quant_indices img_rgb palette_rgb 0).zip (quant_indices img_rgb palette_rgb s)).countP
    fun p => p.1 != p.2

/-- The panel palette of the source module (`PALETTE`): black, white, green,
blue, red, yellow. -/
def PALETTE : List Color :=
  [(0, 0, 0), (255, 255, 255), (0, 255, 0), (0, 0, 255), (255, 0, 0), (255, 255, 0)]

/-- Black/white palette used in the concrete test scenarios. -/
def bwPalette : List Color := [(0, 0, 0), (255, 255, 255)]

/-- Abbreviation for the nearest-palette index chosen for pixel `pi` from
the three channels the raster loop reads out of the flat buffer. -/
def nidx_at (buf : List ℚ) (pi : Nat) (pal : List Color) : Nat :=
  nearest_palette_index (buf.getD (pi * 3) 0) (buf.getD (pi * 3 + 1) 0)
    (buf.getD (pi * 3 + 2) 0) pal

/-- The four diffusion writes of one loop iteration, in source order:
`(x+1, y) x7/16`, `(x-1, y+1) x3/16`, `(x, y+1) x5/16`, `(x+1, y+1) x1/16`. -/
def diffuse (width height : Nat) (buf : List ℚ) (x y : Nat) (er eg eb : ℚ) : List ℚ :=
  add_error width height
    (add_error width height
      (add_error width height
        (add_error width height buf ((x : ℤ) + 1) (y : ℤ) er eg eb (7 / 16))
        ((x : ℤ) - 1) ((y : ℤ) + 1) er eg eb (3 / 16))
      ((x : ℤ)) ((y : ℤ) + 1) er eg eb (5 / 16))
    ((x : ℤ) + 1) ((y : ℤ) + 1) er eg eb (1 / 16)

/-- Gray ramp used for the monotonicity analysis (8x1 gradient from 100 to
160). -/
def rampImage : InImage :=
  ⟨8, 1, [(100, 100, 100), (108, 108, 108), (117, 117, 117), (125, 125, 125),
          (134, 134, 134), (142, 142, 142), (151, 151, 151), (160, 160, 160)]⟩

/-- Property bundle for the result of the nearest-color scan: the returned
index is in range, attains the minimal squared distance, and no strictly
earlier index attains it (first minimal wins). -/
def scan_result_ok (r g b : ℚ) (pal : List Color) (res : Nat) : Prop :=
  res < pal.length ∧
  (∀ j, j < pal.length →
    sq_dist r g b (pal.getD res (0, 0, 0)) ≤ sq_dist r g b (pal.getD j (0, 0, 0))) ∧
  (∀ j, j < res →
    sq_dist r g b (pal.getD res (0, 0, 0)) < sq_dist r g b (pal.getD j (0, 0, 0)))

/-! ### Generic list access helpers -/

theorem getD_set_eq {α : Type} (l : List α) (i : Nat) (a d : α) (h : i < l.length) :
    (l.set i a).getD i d = a := by
  simp [List.getD_eq_getElem?_getD, List.getElem?_set, h]

theorem getD_set_ne {α : Type} (l : List α) (i j : Nat) (a d : α) (h : i ≠ j) :
    (l.set i a).getD j d = l.getD j d := by
  simp [List.getD_eq_getElem?_getD, List.getElem?_set, h]

theorem getD_replicate {α : Type} (n j : Nat) (x d : α) :
    (List.replicate n x).getD j d = if j < n then x else d := by
  by_cases h : j < n <;> simp [List.getD_eq_getElem?_getD, List.getElem?_replicate, h]

/-! ### Specification of the nearest-color scan -/

theorem scan_spec (r g b : ℚ) (pal : List Color) :
    ∀ (l : List Color) (k bi : Nat), pal.drop k = l → bi < k → bi < pal.length →
    (∀ j, j < k →
      sq_dist r g b (pal.getD bi (0, 0, 0)) ≤ sq_dist r g b (pal.getD j (0, 0, 0))) →
    (∀ j, j < bi →
      sq_dist r g b (pal.getD bi (0, 0, 0)) < sq_dist r g b (pal.getD j (0, 0, 0))) →
    scan_result_ok r g b pal
      (((List.enumFrom k l).foldl (nearest_step r g b)
        (some (sq_dist r g b (pal.getD bi (0, 0, 0))), bi)).2) := by
  intro l
  induction l with
  | nil =>
    intro k bi hdrop hbk hblen hmin hfirst
    have hlen : pal.length ≤ k := by
      have := congrArg List.length hdrop
      simp [List.length_drop] at this
      omega
    exact ⟨hblen, fun j hj => hmin j (by omega), hfirst⟩
  | cons c l' ih =>
    intro k bi hdrop hbk hblen hmin hfirst
    have hk : k < pal.length := by
      have := congrArg List.length hdrop
      simp [List.length_drop] at this
      omega
    have hdrop' : pal.drop k = pal[k] :: pal.drop (k + 1) := List.drop_eq_getElem_cons hk
    have hc : c = pal[k] := by
      rw [hdrop] at hdrop'
      exact (List.cons.injEq _ _ _ _ ▸ hdrop').1
    have hl' : pal.drop (k + 1) = l' := by
      rw [hdrop] at hdrop'
      exact ((List.cons.injEq _ _ _ _ ▸ hdrop').2).symm
    have hgk : pal.getD k (0, 0, 0) = c := by
      rw [List.getD_eq_getElem?_getD, List.getElem?_eq_getElem hk, hc]
      rfl
    have hstep : List.enumFrom k (c :: l') = (k, c) :: List.enumFrom (k + 1) l' := rfl
    rw [hstep, List.foldl_cons]
    by_cases hlt : sq_dist r g b c < sq_dist r g b (pal.getD bi (0, 0, 0))
    · have hstep2 : nearest_step r g b (some (sq_dist r g b (pal.getD bi (0, 0, 0))), bi) (k, c) =
          (some (sq_dist r g b (pal.getD k (0, 0, 0))), k) := by
        simp only [nearest_step, lt_best]
        rw [decide_eq_true hlt, hgk]
        simp
      rw [hstep2]
      refine ih (k + 1) k hl' (by omega) hk ?_ ?_
      · intro j hj
        rcases Nat.lt_succ_iff_lt_or_eq.mp hj with hj' | rfl
        · exact le_trans (le_of_lt (hgk ▸ hlt)) (hmin j hj')
        · exact le_refl _
      · intro j hj
        exact lt_of_lt_of_le (hgk ▸ hlt) (hmin j hj)
    · have hstep2 : nearest_step r g b (some (sq_dist r g b (pal.getD bi (0, 0, 0))), bi) (k, c) =
          (some (sq_dist r g b (pal.getD bi (0, 0, 0))), bi) := by
        simp only [nearest_step, lt_best]
        rw [decide_eq_false hlt]
        simp
      rw [hstep2]
      refine ih (k + 1) bi hl' (by omega) hblen ?_ hfirst
      intro j hj
      rcases Nat.lt_succ_iff_lt_or_eq.mp hj with hj' | rfl
      · exact hmin j hj'
      · exact hgk ▸ le_of_not_lt hlt

/-- Helper instantiating `scan_spec` at the head of the palette: the scan
result satisfies the full nearest-index specification whenever the palette
is non-empty. -/
theorem nearest_spec (r g b : ℚ) (pal : List Color) (hne : pal ≠ []) :
    scan_result_ok r g b pal (nearest_palette_index r g b pal) := by
  obtain ⟨c0, rest, rfl⟩ := List.exists_cons_of_ne_nil hne
  unfold nearest_palette_index
  rw [List.enum_eq_enumFrom]
  have hstep : List.enumFrom 0 (c0 :: rest) = (0, c0) :: List.enumFrom 1 rest := rfl
  rw [hstep, List.foldl_cons]
  have h0 : nearest_step r g b (none, 0) (0, c0) =
      (some (sq_dist r g b ((c0 :: rest).getD 0 (0, 0, 0))), 0) := rfl
  rw [h0]
  refine scan_spec r g b (c0 :: rest) rest 1 0 rfl (by omega) (by simp) ?_ ?_
  · intro j hj
    have hj0 : j = 0 := by omega
    subst hj0
    exact le_refl _
  · intro j hj
    omega

theorem nearest_lt_length (r g b : ℚ) (pal : List Color) (hne : pal ≠ []) :
    nearest_palette_index r g b pal < pal.length :=
  (nearest_spec r g b pal hne).1

theorem nearest_min (r g b : ℚ) (pal : List Color) (hne : pal ≠ []) :
    ∀ j, j < pal.length →
      sq_dist r g b (pal.getD (nearest_palette_index r g b pal) (0, 0, 0)) ≤
        sq_dist r g b (pal.getD j (0, 0, 0)) :=
  (nearest_spec r g b pal hne).2.1

theorem nearest_first (r g b : ℚ) (pal : List Color) (hne : pal ≠ []) :
    ∀ j, j < nearest_palette_index r g b pal →
      sq_dist r g b (pal.getD (nearest_palette_index r g b pal) (0, 0, 0)) <
        sq_dist r g b (pal.getD j (0, 0, 0)) :=
  (nearest_spec r g b pal hne).2.2

/-! ### Flat-index arithmetic -/

theorem flat_lt (x y width height : Nat) (hx : x < width) (hy : y < height) :
    y * width + x < width * height := by
  calc y * width + x < y * width + width := by omega
    _ = (y + 1) * width := by ring
    _ ≤ height * width := Nat.mul_le_mul_right width hy
    _ = width * height := Nat.mul_comm height width

theorem flat_inj (x1 y1 x2 y2 width : Nat) (h1 : x1 < width) (h2 : x2 < width)
    (h : y1 * width + x1 = y2 * width + x2) : x1 = x2 ∧ y1 = y2 := by
  have hW : 0 < width := by omega
  have e1 : (x1 + width * y1) % width = x1 % width := Nat.add_mul_mod_self_left x1 width y1
  have e2 : (x2 + width * y2) % width = x2 % width := Nat.add_mul_mod_self_left x2 width y2
  have hsh : x1 + width * y1 = x2 + width * y2 := by
    have := h
    ring_nf at this ⊢
    omega
  have hx : x1 = x2 := by
    rw [Nat.mod_eq_of_lt h1] at e1
    rw [Nat.mod_eq_of_lt h2] at e2
    rw [hsh] at e1
    rw [e2] at e1
    exact e1.symm
  refine ⟨hx, ?_⟩
  subst hx
  have : width * y1 = width * y2 := by omega
  exact Nat.eq_of_mul_eq_mul_left hW this

/-! ### Behavior of add_error -/

theorem add_error_oob (width height : Nat) (buf : List ℚ) (x y : ℤ) (er eg eb f : ℚ)
    (h : x < 0 ∨ y < 0 ∨ (width : ℤ) ≤ x ∨ (height : ℤ) ≤ y) :
    add_error width height buf x y er eg eb f = buf := by
  unfold add_error
  rw [if_pos h]

theorem add_error_length (width height : Nat) (buf : List ℚ) (x y : ℤ) (er eg eb f : ℚ) :
    (add_error width height buf x y er eg eb f).length = buf.length := by
  unfold add_error
  by_cases h : x < 0 ∨ y < 0 ∨ (width : ℤ) ≤ x ∨ (height : ℤ) ≤ y
  · rw [if_pos h]
  · rw [if_neg h]
    simp [List.length_set]

theorem add_error_chan_ne (width height : Nat) (buf : List ℚ) (x y : ℤ) (er eg eb f : ℚ)
    (q c : Nat) (hc : c < 3)
    (h : 0 ≤ x → 0 ≤ y → x < (width : ℤ) → y < (height : ℤ) → q ≠ y.toNat * width + x.toNat) :
    buf_chan (add_error width height buf x y er eg eb f) q c = buf_chan buf q c := by
  unfold add_error
  by_cases hg : x < 0 ∨ y < 0 ∨ (width : ℤ) ≤ x ∨ (height : ℤ) ≤ y
  · rw [if_pos hg]
  · rw [if_neg hg]
    push_neg at hg
    obtain ⟨hx0, hy0, hxw, hyh⟩ := hg
    have hq : q ≠ y.toNat * width + x.toNat := h hx0 hy0 hxw hyh
    simp only [buf_chan]
    rw [getD_set_ne _ _ _ _ _ (by omega), getD_set_ne _ _ _ _ _ (by omega),
      getD_set_ne _ _ _ _ _ (by omega)]

theorem add_error_chan_eq (width height : Nat) (buf : List ℚ) (x y : ℤ) (er eg eb f : ℚ)
    (hx0 : 0 ≤ x) (hy0 : 0 ≤ y) (hxw : x < (width : ℤ)) (hyh : y < (height : ℤ))
    (hbuf : buf.length = width * height * 3) :
    buf_chan (add_error width height buf x y er eg eb f) (y.toNat * width + x.toNat) 0 =
      clamp_u8 (buf_chan buf (y.toNat * width + x.toNat) 0 + er * f) ∧
    buf_chan (add_error width height buf x y er eg eb f) (y.toNat * width + x.toNat) 1 =
      clamp_u8 (buf_chan buf (y.toNat * width + x.toNat) 1 + eg * f) ∧
    buf_chan (add_error width height buf x y er eg eb f) (y.toNat * width + x.toNat) 2 =
      clamp_u8 (buf_chan buf (y.toNat * width + x.toNat) 2 + eb * f) := by
  have hxw' : x.toNat < width := by omega
  have hyh' : y.toNat < height := by omega
  have hpi : y.toNat * width + x.toNat < width * height := flat_lt _ _ _ _ hxw' hyh'
  have hg : ¬ (x < 0 ∨ y < 0 ∨ (width : ℤ) ≤ x ∨ (height : ℤ) ≤ y) := by omega
  unfold add_error
  rw [if_neg hg]
  simp only [buf_chan]
  set pi := y.toNat * width + x.toNat with hpidef
  have hb0 : pi * 3 + 0 < buf.length := by omega
  have hb1 : pi * 3 + 1 < buf.length := by omega
  have hb2 : pi * 3 + 2 < buf.length := by omega
  have e1 : pi * 3 + 0 = pi * 3 := by omega
  refine ⟨?_, ?_, ?_⟩
  · rw [getD_set_ne _ _ _ _ _ (by omega), getD_set_ne _ _ _ _ _ (by omega), e1,
      getD_set_eq _ _ _ _ (by omega)]
  · rw [getD_set_ne _ _ _ _ _ (by omega),
      getD_set_eq _ _ _ _ (by simp [List.length_set]; omega),
      getD_set_ne _ _ _ _ _ (by omega)]
  · rw [getD_set_eq _ _ _ _ (by simp [List.length_set]; omega),
      getD_set_ne _ _ _ _ _ (by omega), getD_set_ne _ _ _ _ _ (by omega)]

/-! ### Normal forms of process_pixel -/

theorem getD_of_lt {α : Type} (l : List α) (i : Nat) (d : α) (h : i < l.length) :
    l.getD i d = l[i] := by
  rw [List.getD_eq_getElem?_getD, List.getElem?_eq_getElem h]
  rfl

theorem process_pixel_nodither (width height : Nat) (pal : List Color) (st : ℚ)
    (x y : Nat) (s : QState) (hpal : pal ≠ []) (hst : st ≤ 0) :
    process_pixel width height pal st x y s =
      .ok ⟨s.data, s.buf, s.out_idx.set (y * width + x) (nidx_at s.buf (y * width + x) pal)⟩ := by
  have hidx : nidx_at s.buf (y * width + x) pal < pal.length := nearest_lt_length _ _ _ _ hpal
  simp only [process_pixel, nidx_at] at hidx ⊢
  rw [List.getElem?_eq_getElem hidx]
  dsimp only
  rw [if_pos hst]

theorem process_pixel_dither (width height : Nat) (pal : List Color) (st : ℚ)
    (x y : Nat) (s : QState) (hpal : pal ≠ []) (hst : ¬ st ≤ 0) :
    process_pixel width height pal st x y s =
      .ok ⟨s.data,
        diffuse width height s.buf x y
          ((s.buf.getD ((y * width + x) * 3) 0 -
            (pal.getD (nidx_at s.buf (y * width + x) pal) (0, 0, 0)).1) * st)
          ((s.buf.getD ((y * width + x) * 3 + 1) 0 -
            (pal.getD (nidx_at s.buf (y * width + x) pal) (0, 0, 0)).2.1) * st)
          ((s.buf.getD ((y * width + x) * 3 + 2) 0 -
            (pal.getD (nidx_at s.buf (y * width + x) pal) (0, 0, 0)).2.2) * st),
        s.out_idx.set (y * width + x) (nidx_at s.buf (y * width + x) pal)⟩ := by
  have hidx : nidx_at s.buf (y * width + x) pal < pal.length := nearest_lt_length _ _ _ _ hpal
  have hc : pal.getD (nidx_at s.buf (y * width + x) pal) (0, 0, 0) =
      pal[nidx_at s.buf (y * width + x) pal] := getD_of_lt _ _ _ hidx
  rw [hc]
  simp only [process_pixel, nidx_at, diffuse] at hidx ⊢
  rw [List.getElem?_eq_getElem hidx]
  dsimp only
  rw [if_neg hst]

theorem process_pixel_empty (width height : Nat) (st : ℚ) (x y : Nat) (s : QState) :
    process_pixel width height [] st x y s = .error .indexError := rfl

theorem process_pixel_ok (width height : Nat) (pal : List Color) (st : ℚ)
    (x y : Nat) (s : QState) (hpal : pal ≠ []) :
    ∃ s', process_pixel width height pal st x y s = .ok s' ∧
      s'.data = s.data ∧ s'.buf.length = s.buf.length ∧
      s'.out_idx = s.out_idx.set (y * width + x) (nidx_at s.buf (y * width + x) pal) := by
  by_cases hst : st ≤ 0
  · exact ⟨_, process_pixel_nodither width height pal st x y s hpal hst, rfl, rfl, rfl⟩
  · refine ⟨_, process_pixel_dither width height pal st x y s hpal hst, rfl, ?_, rfl⟩
    simp [diffuse, add_error_length]

/-! ### Running the raster loop -/

theorem run_pixels_nil (width height : Nat) (pal : List Color) (st : ℚ) (s : QState) :
    run_pixels width height pal st [] s = .ok s := rfl

theorem run_pixels_cons_ok (width height : Nat) (pal : List Color) (st : ℚ)
    (p : Nat × Nat) (ps : List (Nat × Nat)) (s s₁ : QState)
    (hproc : process_pixel width height pal st p.1 p.2 s = .ok s₁) :
    run_pixels width height pal st (p :: ps) s = run_pixels width height pal st ps s₁ := by
  simp [run_pixels, List.foldlM_cons, hproc]
  rfl

theorem run_pixels_cons_err (width height : Nat) (pal : List Color) (st : ℚ)
    (p : Nat × Nat) (ps : List (Nat × Nat)) (s : QState) (e : PyErr)
    (hproc : process_pixel width height pal st p.1 p.2 s = .error e) :
    run_pixels width height pal st (p :: ps) s = .error e := by
  simp [run_pixels, List.foldlM_cons, hproc]
  rfl

theorem out_entries_set (o : List Nat) (pi v n : Nat) (hv : v < n)
    (h : ∀ j, j < o.length → o.getD j 0 < n) :
    ∀ j, j < (o.set pi v).length → (o.set pi v).getD j 0 < n := by
  intro j hj
  rw [List.length_set] at hj
  by_cases hji : pi = j
  · subst hji
    rw [getD_set_eq _ _ _ _ hj]
    exact hv
  · rw [getD_set_ne _ _ _ _ _ hji]
    exact h j hj

theorem run_pixels_ok (width height : Nat) (pal : List Color) (st : ℚ) (hpal : pal ≠ []) :
    ∀ (ps : List (Nat × Nat)) (s : QState), ∃ s',
      run_pixels width height pal st ps s = .ok s' ∧
      s'.data = s.data ∧
      s'.buf.length = s.buf.length ∧
      s'.out_idx.length = s.out_idx.length ∧
      ((∀ j, j < s.out_idx.length → s.out_idx.getD j 0 < pal.length) →
        (∀ j, j < s'.out_idx.length → s'.out_idx.getD j 0 < pal.length)) := by
  intro ps
  induction ps with
  | nil => exact fun s => ⟨s, rfl, rfl, rfl, rfl, fun h => h⟩
  | cons p ps ih =>
    intro s
    obtain ⟨s₁, hproc, hdata, hbuf, hout⟩ :=
      process_pixel_ok width height pal st p.1 p.2 s hpal
    obtain ⟨s', hrun, hdata', hbuf', hlen', hinv'⟩ := ih s₁
    refine ⟨s', ?_, ?_, ?_, ?_, ?_⟩
    · rw [run_pixels_cons_ok width height pal st p ps s s₁ hproc]
      exact hrun
    · rw [hdata', hdata]
    · rw [hbuf', hbuf]
    · rw [hlen', hout, List.length_set]
    · intro hbase
      refine hinv' ?_
      rw [hout]
      exact out_entries_set s.out_idx (p.2 * width + p.1) _ pal.length
        (nearest_lt_length _ _ _ _ hpal) hbase

/-! ### Characterization of the initialized buffer -/

theorem init_fold_spec (l : List (Nat × Nat × Nat)) :
    ∀ (k : Nat) (base : List ℚ),
      ((List.enumFrom k l).foldl init_px base).length = base.length ∧
      (∀ q, q < 3 * k ∨ 3 * (k + l.length) ≤ q →
        ((List.enumFrom k l).foldl init_px base).getD q 0 = base.getD q 0) ∧
      (∀ i, k ≤ i → i < k + l.length → 3 * i + 3 ≤ base.length →
        ((List.enumFrom k l).foldl init_px base).getD (i * 3) 0 =
          ((l.getD (i - k) (0, 0, 0)).1 : ℚ) ∧
        ((List.enumFrom k l).foldl init_px base).getD (i * 3 + 1) 0 =
          ((l.getD (i - k) (0, 0, 0)).2.1 : ℚ) ∧
        ((List.enumFrom k l).foldl init_px base).getD (i * 3 + 2) 0 =
          ((l.getD (i - k) (0, 0, 0)).2.2 : ℚ)) := by
  induction l with
  | nil =>
    intro k base
    refine ⟨rfl, fun q _ => rfl, fun i hki hilt _ => ?_⟩
    simp at hilt
    omega
  | cons a l' ih =>
    intro k base
    have hstep : List.enumFrom k (a :: l') = (k, a) :: List.enumFrom (k + 1) l' := rfl
    rw [hstep, List.foldl_cons]
    obtain ⟨ihlen, ihpres, ihchan⟩ := ih (k + 1) (init_px base (k, a))
    have hb1len : (init_px base (k, a)).length = base.length := by
      simp [init_px, List.length_set]
    have hb1ne : ∀ q, q ≠ k * 3 → q ≠ k * 3 + 1 → q ≠ k * 3 + 2 →
        (init_px base (k, a)).getD q 0 = base.getD q 0 := by
      intro q h0 h1 h2
      simp only [init_px]
      rw [getD_set_ne _ _ _ _ _ (by omega), getD_set_ne _ _ _ _ _ (by omega),
        getD_set_ne _ _ _ _ _ (by omega)]
    refine ⟨by rw [ihlen, hb1len], ?_, ?_⟩
    · intro q hq
      have hlq : (a :: l').length = l'.length + 1 := rfl
      have hq' : q < 3 * (k + 1) ∨ 3 * ((k + 1) + l'.length) ≤ q := by
        rw [hlq] at hq
        omega
      rw [ihpres q hq']
      exact hb1ne q (by rw [hlq] at hq; omega) (by rw [hlq] at hq; omega)
        (by rw [hlq] at hq; omega)
    · intro i hki hilt hbound
      by_cases hik : i = k
      · subst hik
        have e0 := ihpres (i * 3) (Or.inl (by omega))
        have e1 := ihpres (i * 3 + 1) (Or.inl (by omega))
        have e2 := ihpres (i * 3 + 2) (Or.inl (by omega))
        rw [e0, e1, e2, Nat.sub_self]
        simp only [init_px, List.getD_cons_zero]
        refine ⟨?_, ?_, ?_⟩
        · rw [getD_set_ne _ _ _ _ _ (by omega), getD_set_ne _ _ _ _ _ (by omega),
            getD_set_eq _ _ _ _ (by omega)]
        · rw [getD_set_ne _ _ _ _ _ (by omega),
            getD_set_eq _ _ _ _ (by simp [List.length_set]; omega)]
        · rw [getD_set_eq _ _ _ _ (by simp [List.length_set]; omega)]
      · have hilt' : i < (k + 1) + l'.length := by
          have : (a :: l').length = l'.length + 1 := rfl
          rw [this] at hilt
          omega
        obtain ⟨c0, c1, c2⟩ := ihchan i (by omega) hilt' (by rw [hb1len]; exact hbound)
        have hsub : i - k = (i - (k + 1)) + 1 := by omega
        rw [c0, c1, c2, hsub, List.getD_cons_succ]
        exact ⟨rfl, rfl, rfl⟩

theorem init_buf_length (px_count : Nat) (data : List (Nat × Nat × Nat)) :
    (init_buf px_count data).length = px_count * 3 := by
  unfold init_buf
  rw [List.enum_eq_enumFrom, (init_fold_spec data 0 _).1, List.length_replicate]

theorem init_buf_chan (px_count : Nat) (data : List (Nat × Nat × Nat))
    (hlen : data.length ≤ px_count) (i : Nat) (hi : i < data.length) :
    (init_buf px_count data).getD (i * 3) 0 = ((data.getD i (0, 0, 0)).1 : ℚ) ∧
    (init_buf px_count data).getD (i * 3 + 1) 0 = ((data.getD i (0, 0, 0)).2.1 : ℚ) ∧
    (init_buf px_count data).getD (i * 3 + 2) 0 = ((data.getD i (0, 0, 0)).2.2 : ℚ) := by
  unfold init_buf
  rw [List.enum_eq_enumFrom]
  have h := (init_fold_spec data 0 (List.replicate (px_count * 3) 0)).2.2 i (by omega)
    (by omega) (by rw [List.length_replicate]; omega)
  simpa using h

/-! ### The raster loop at strength zero -/

theorem run_pixels_zero (width height : Nat) (pal : List Color) (st : ℚ)
    (hpal : pal ≠ []) (hst : st ≤ 0) :
    ∀ (ps : List (Nat × Nat)) (s : QState),
      run_pixels width height pal st ps s =
        .ok ⟨s.data, s.buf,
          ps.foldl
            (fun o p => o.set (p.2 * width + p.1) (nidx_at s.buf (p.2 * width + p.1) pal))
            s.out_idx⟩ := by
  intro ps
  induction ps with
  | nil => intro s; rfl
  | cons p ps ih =>
    intro s
    rw [run_pixels_cons_ok width height pal st p ps s _
      (process_pixel_nodither width height pal st p.1 p.2 s hpal hst)]
    rw [ih ⟨s.data, s.buf, s.out_idx.set (p.2 * width + p.1)
      (nidx_at s.buf (p.2 * width + p.1) pal)⟩]
    rfl

theorem foldl_set_length (width : Nat) (g : Nat → Nat) :
    ∀ (ps : List (Nat × Nat)) (o : List Nat),
      (ps.foldl (fun o p => o.set (p.2 * width + p.1) (g (p.2 * width + p.1))) o).length =
        o.length := by
  intro ps
  induction ps with
  | nil => intro o; rfl
  | cons p ps ih =>
    intro o
    rw [List.foldl_cons, ih, List.length_set]

theorem foldl_set_getD (width : Nat) (g : Nat → Nat) :
    ∀ (ps : List (Nat × Nat)) (o : List Nat) (j : Nat), j < o.length →
      (ps.foldl (fun o p => o.set (p.2 * width + p.1) (g (p.2 * width + p.1))) o).getD j 0 =
        if ∃ p ∈ ps, p.2 * width + p.1 = j then g j else o.getD j 0 := by
  intro ps
  induction ps with
  | nil =>
    intro o j hj
    simp
  | cons p ps ih =>
    intro o j hj
    rw [List.foldl_cons]
    rw [ih (o.set (p.2 * width + p.1) (g (p.2 * width + p.1))) j (by rw [List.length_set]; exact hj)]
    by_cases htail : ∃ q ∈ ps, q.2 * width + q.1 = j
    · rw [if_pos htail, if_pos ?_]
      obtain ⟨q, hq, hqe⟩ := htail
      exact ⟨q, List.mem_cons_of_mem p hq, hqe⟩
    · rw [if_neg htail]
      by_cases hhead : p.2 * width + p.1 = j
      · rw [hhead, getD_set_eq _ _ _ _ hj]
        rw [if_pos ⟨p, List.mem_cons_self p ps, hhead⟩]
      · rw [getD_set_ne _ _ _ _ _ hhead]
        rw [if_neg ?_]
        rintro ⟨q, hq, hqe⟩
        rcases List.mem_cons.mp hq with rfl | hq'
        · exact hhead hqe
        · exact htail ⟨q, hq', hqe⟩

/-! ### Raster coordinates -/

theorem raster_coords_mem (width height : Nat) (x y : Nat) (hx : x < width) (hy : y < height) :
    (x, y) ∈ raster_coords width height := by
  unfold raster_coords
  rw [List.mem_flatMap]
  exact ⟨y, List.mem_range.mpr hy, List.mem_map.mpr ⟨x, List.mem_range.mpr hx, rfl⟩⟩

theorem raster_coords_flat (width height : Nat) (j : Nat) (hj : j < width * height) :
    ∃ p ∈ raster_coords width height, p.2 * width + p.1 = j := by
  have hw : 0 < width := by
    by_contra h
    have : width = 0 := by omega
    subst this
    simp at hj
  have hdiv : j / width < height := Nat.div_lt_iff_lt_mul hw |>.mpr (by
    rw [Nat.mul_comm] at hj
    exact hj)
  refine ⟨(j % width, j / width), raster_coords_mem width height _ _ (Nat.mod_lt _ hw) hdiv, ?_⟩
  show j / width * width + j % width = j
  rw [Nat.mul_comm (j / width) width]
  exact Nat.div_add_mod j width
/-! ### Whole-run lemmas for the quantizer -/

theorem list_ext_getD {α : Type} (d : α) (l1 l2 : List α) (hlen : l1.length = l2.length)
    (h : ∀ j, j < l1.length → l1.getD j d = l2.getD j d) : l1 = l2 := by
  apply List.ext_getElem hlen
  intro j h1 h2
  have := h j h1
  rwa [getD_of_lt _ _ _ h1, getD_of_lt _ _ _ h2] at this

theorem quantize_eq (img_rgb : InImage) (palette_rgb : List Color) (ds : ℚ) :
    quantize_with_dither_strength img_rgb palette_rgb ds =
      match run_pixels img_rgb.width img_rgb.height palette_rgb (max 0 (min 1 ds))
          (raster_coords img_rgb.width img_rgb.height) (init_state img_rgb) with
      | .error e => .error e
      | .ok s =>
        .ok ⟨img_rgb.width, img_rgb.height, make_palette_flat palette_rgb, s.out_idx⟩ := rfl

theorem quantize_total (img : InImage) (pal : List Color) (ds : ℚ) (hpal : pal ≠ []) :
    ∃ out, quantize_with_dither_strength img pal ds = .ok out ∧
      out.width = img.width ∧ out.height = img.height ∧
      out.palette = make_palette_flat pal ∧
      out.data.length = img.width * img.height ∧
      (∀ j, j < out.data.length → out.data.getD j 0 < pal.length) := by
  obtain ⟨s', hrun, hdata, hbuf, hlen, hinv⟩ :=
    run_pixels_ok img.width img.height pal (max 0 (min 1 ds)) hpal
      (raster_coords img.width img.height) (init_state img)
  refine ⟨⟨img.width, img.height, make_palette_flat pal, s'.out_idx⟩, ?_, rfl, rfl, rfl, ?_, ?_⟩
  · rw [quantize_eq, hrun]
  · rw [hlen]
    simp [init_state]
  · intro j hj
    refine hinv ?_ j hj
    intro j' hj'
    have h0 : (0 : Nat) < pal.length := List.length_pos.mpr hpal
    simp only [init_state] at hj' ⊢
    rw [getD_replicate]
    split <;> omega

theorem quantize_empty_geom (img : InImage) (pal : List Color) (ds : ℚ)
    (h : img.width = 0 ∨ img.height = 0) :
    quantize_with_dither_strength img pal ds =
      .ok ⟨img.width, img.height, make_palette_flat pal, []⟩ := by
  have hpx : img.width * img.height = 0 := by
    rcases h with h | h <;> simp [h]
  have hraster : raster_coords img.width img.height = [] := by
    unfold raster_coords
    rcases h with h | h <;> simp [h]
  rw [quantize_eq, hraster, run_pixels_nil]
  simp [init_state, hpx]

theorem run_pixels_empty_pal (width height : Nat) (st : ℚ) (ps : List (Nat × Nat)) (s : QState)
    (hne : ps ≠ []) : run_pixels width height [] st ps s = .error .indexError := by
  cases ps with
  | nil => exact absurd rfl hne
  | cons p t => exact run_pixels_cons_err _ _ _ _ p t s _ (process_pixel_empty _ _ _ _ _ _)

theorem quantize_empty_palette (img : InImage) (ds : ℚ)
    (hw : 0 < img.width) (hh : 0 < img.height) :
    quantize_with_dither_strength img [] ds = .error .indexError := by
  have hne : raster_coords img.width img.height ≠ [] :=
    List.ne_nil_of_mem (raster_coords_mem img.width img.height 0 0 hw hh)
  rw [quantize_eq, run_pixels_empty_pal img.width img.height (max 0 (min 1 ds)) _ _ hne]

theorem strength_clamp_zero (ds : ℚ) (hds : ds ≤ 0) : max 0 (min 1 ds) ≤ 0 :=
  max_le le_rfl ((min_le_right 1 ds).trans hds)

theorem nidx_at_init (img : InImage) (hdata : img.data.length = img.width * img.height)
    (pal : List Color) (j : Nat) (hj : j < img.width * img.height) :
    nidx_at (init_buf (img.width * img.height) img.data) j pal =
      nearest_palette_index ((img.data.getD j (0, 0, 0)).1 : ℚ)
        ((img.data.getD j (0, 0, 0)).2.1 : ℚ) ((img.data.getD j (0, 0, 0)).2.2 : ℚ) pal := by
  obtain ⟨c0, c1, c2⟩ := init_buf_chan (img.width * img.height) img.data (by omega) j (by omega)
  unfold nidx_at
  rw [c0, c1, c2]

theorem quantize_zero_spec (img : InImage) (pal : List Color) (ds : ℚ)
    (hpal : pal ≠ []) (hds : ds ≤ 0) (hdata : img.data.length = img.width * img.height) :
    ∃ out, quantize_with_dither_strength img pal ds = .ok out ∧
      out.data.length = img.width * img.height ∧
      (∀ j, j < img.width * img.height →
        out.data.getD j 0 =
          nearest_palette_index ((img.data.getD j (0, 0, 0)).1 : ℚ)
            ((img.data.getD j (0, 0, 0)).2.1 : ℚ)
            ((img.data.getD j (0, 0, 0)).2.2 : ℚ) pal) ∧
      (∀ ps : List (Nat × Nat),
        (∀ j, j < img.width * img.height → ∃ p ∈ ps, p.2 * img.width + p.1 = j) →
        run_pixels img.width img.height pal (max 0 (min 1 ds)) ps (init_state img) =
          .ok ⟨img.data, init_buf (img.width * img.height) img.data, out.data⟩) := by
  have hst : max 0 (min 1 ds) ≤ 0 := strength_clamp_zero ds hds
  have hrun := run_pixels_zero img.width img.height pal (max 0 (min 1 ds)) hpal hst
    (raster_coords img.width img.height) (init_state img)
  have hbase : (List.replicate (img.width * img.height) (0 : Nat)).length =
      img.width * img.height := List.length_replicate _ _
  have hfold_len := foldl_set_length img.width
    (fun pi => nidx_at (init_state img).buf pi pal)
    (raster_coords img.width img.height) (List.replicate (img.width * img.height) 0)
  have hpoint : ∀ j, j < img.width * img.height →
      ((raster_coords img.width img.height).foldl
        (fun o p => o.set (p.2 * img.width + p.1)
          (nidx_at (init_state img).buf (p.2 * img.width + p.1) pal))
        (List.replicate (img.width * img.height) 0)).getD j 0 =
        nearest_palette_index ((img.data.getD j (0, 0, 0)).1 : ℚ)
          ((img.data.getD j (0, 0, 0)).2.1 : ℚ)
          ((img.data.getD j (0, 0, 0)).2.2 : ℚ) pal := by
    intro j hj
    rw [foldl_set_getD img.width (fun pi => nidx_at (init_state img).buf pi pal)
      (raster_coords img.width img.height) _ j (by rw [hbase]; exact hj)]
    rw [if_pos (raster_coords_flat img.width img.height j hj)]
    exact nidx_at_init img hdata pal j hj
  refine ⟨⟨img.width, img.height, make_palette_flat pal,
      (raster_coords img.width img.height).foldl
        (fun o p => o.set (p.2 * img.width + p.1)
          (nidx_at (init_state img).buf (p.2 * img.width + p.1) pal))
        (List.replicate (img.width * img.height) 0)⟩, ?_, ?_, hpoint, ?_⟩
  · rw [quantize_eq, hrun]
    rfl
  · rw [hfold_len]
    exact hbase
  · intro ps hcover
    have hbase2 : (init_state img).out_idx.length = img.width * img.height := by
      simp [init_state]
    have hsame : ps.foldl
        (fun o p => o.set (p.2 * img.width + p.1)
          (nidx_at (init_state img).buf (p.2 * img.width + p.1) pal))
        (init_state img).out_idx =
        (raster_coords img.width img.height).foldl
          (fun o p => o.set (p.2 * img.width + p.1)
            (nidx_at (init_state img).buf (p.2 * img.width + p.1) pal))
          (List.replicate (img.width * img.height) 0) := by
      refine list_ext_getD 0 _ _ ?_ ?_
      · rw [foldl_set_length img.width (fun pi => nidx_at (init_state img).buf pi pal) ps _,
          hfold_len, hbase2, hbase]
      · intro j hj
        rw [foldl_set_length img.width (fun pi => nidx_at (init_state img).buf pi pal) ps _,
          hbase2] at hj
        rw [foldl_set_getD img.width (fun pi => nidx_at (init_state img).buf pi pal)
          ps _ j (by rw [hbase2]; exact hj)]
        rw [if_pos (hcover j hj)]
        rw [hpoint j hj]
        exact nidx_at_init img hdata pal j hj
    rw [run_pixels_zero img.width img.height pal (max 0 (min 1 ds)) hpal hst ps
      (init_state img), hsame]
    rfl

/-! ### Where the four diffusion writes land -/

theorem row_flat_ne (width a b x1 x2 : Nat) (h1 : x1 < width) (hab : a < b) :
    a * width + x1 ≠ b * width + x2 := by
  intro heq
  have h2 : a * width + x1 < b * width + x2 := by
    calc a * width + x1 < a * width + width := Nat.add_lt_add_left h1 _
      _ = (a + 1) * width := by ring
      _ ≤ b * width := Nat.mul_le_mul_right width hab
      _ ≤ b * width + x2 := Nat.le_add_right _ _
  omega

theorem same_row_flat_ne (width a x1 x2 : Nat) (h : x1 ≠ x2) :
    a * width + x1 ≠ a * width + x2 := by
  intro heq
  exact h (Nat.add_left_cancel heq)

theorem diffuse_t1 (width height : Nat) (buf : List ℚ) (x y : Nat) (er eg eb : ℚ)
    (hbuf : buf.length = width * height * 3) (hy : y < height) (hx1 : x + 1 < width) :
    buf_chan (diffuse width height buf x y er eg eb) (y * width + (x + 1)) 0 =
      clamp_u8 (buf_chan buf (y * width + (x + 1)) 0 + er * (7 / 16)) ∧
    buf_chan (diffuse width height buf x y er eg eb) (y * width + (x + 1)) 1 =
      clamp_u8 (buf_chan buf (y * width + (x + 1)) 1 + eg * (7 / 16)) ∧
    buf_chan (diffuse width height buf x y er eg eb) (y * width + (x + 1)) 2 =
      clamp_u8 (buf_chan buf (y * width + (x + 1)) 2 + eb * (7 / 16)) := by
  have hqlt : ∀ x2 : Nat, y * width + (x + 1) ≠ (y + 1) * width + x2 := fun x2 =>
    row_flat_ne width y (y + 1) (x + 1) x2 hx1 (Nat.lt_succ_self y)
  have k4 : (0:ℤ) ≤ (x:ℤ) + 1 → (0:ℤ) ≤ (y:ℤ) + 1 → (x:ℤ) + 1 < (width:ℤ) →
      (y:ℤ) + 1 < (height:ℤ) →
      y * width + (x + 1) ≠ ((y:ℤ) + 1).toNat * width + ((x:ℤ) + 1).toNat := by
    intro _ _ _ _
    have e1 : ((y:ℤ) + 1).toNat = y + 1 := by omega
    have e2 : ((x:ℤ) + 1).toNat = x + 1 := by omega
    rw [e1, e2]
    exact hqlt (x + 1)
  have k3 : (0:ℤ) ≤ (x:ℤ) → (0:ℤ) ≤ (y:ℤ) + 1 → (x:ℤ) < (width:ℤ) →
      (y:ℤ) + 1 < (height:ℤ) →
      y * width + (x + 1) ≠ ((y:ℤ) + 1).toNat * width + ((x:ℤ)).toNat := by
    intro _ _ _ _
    have e1 : ((y:ℤ) + 1).toNat = y + 1 := by omega
    have e2 : ((x:ℤ)).toNat = x := by omega
    rw [e1, e2]
    exact hqlt x
  have k2 : (0:ℤ) ≤ (x:ℤ) - 1 → (0:ℤ) ≤ (y:ℤ) + 1 → (x:ℤ) - 1 < (width:ℤ) →
      (y:ℤ) + 1 < (height:ℤ) →
      y * width + (x + 1) ≠ ((y:ℤ) + 1).toNat * width + ((x:ℤ) - 1).toNat := by
    intro hx0 _ _ _
    have e1 : ((y:ℤ) + 1).toNat = y + 1 := by omega
    have e2 : ((x:ℤ) - 1).toNat = x - 1 := by omega
    rw [e1, e2]
    exact hqlt (x - 1)
  obtain ⟨E0, E1, E2⟩ := add_error_chan_eq width height buf ((x:ℤ) + 1) (y:ℤ) er eg eb (7 / 16)
    (by omega) (by omega) (by omega) (by omega) hbuf
  have e1 : ((y : ℤ)).toNat = y := by omega
  have e2 : ((x:ℤ) + 1).toNat = x + 1 := by omega
  rw [e1, e2] at E0 E1 E2
  unfold diffuse
  refine ⟨?_, ?_, ?_⟩
  · rw [add_error_chan_ne _ _ _ _ _ _ _ _ _ _ 0 (by omega) k4,
      add_error_chan_ne _ _ _ _ _ _ _ _ _ _ 0 (by omega) k3,
      add_error_chan_ne _ _ _ _ _ _ _ _ _ _ 0 (by omega) k2, E0]
  · rw [add_error_chan_ne _ _ _ _ _ _ _ _ _ _ 1 (by omega) k4,
      add_error_chan_ne _ _ _ _ _ _ _ _ _ _ 1 (by omega) k3,
      add_error_chan_ne _ _ _ _ _ _ _ _ _ _ 1 (by omega) k2, E1]
  · rw [add_error_chan_ne _ _ _ _ _ _ _ _ _ _ 2 (by omega) k4,
      add_error_chan_ne _ _ _ _ _ _ _ _ _ _ 2 (by omega) k3,
      add_error_chan_ne _ _ _ _ _ _ _ _ _ _ 2 (by omega) k2, E2]

theorem diffuse_t2 (width height : Nat) (buf : List ℚ) (x y : Nat) (er eg eb : ℚ)
    (hbuf : buf.length = width * height * 3) (hx : x < width) (hx0 : 1 ≤ x)
    (hy1 : y + 1 < height) :
    buf_chan (diffuse width height buf x y er eg eb) ((y + 1) * width + (x - 1)) 0 =
      clamp_u8 (buf_chan buf ((y + 1) * width + (x - 1)) 0 + er * (3 / 16)) ∧
    buf_chan (diffuse width height buf x y er eg eb) ((y + 1) * width + (x - 1)) 1 =
      clamp_u8 (buf_chan buf ((y + 1) * width + (x - 1)) 1 + eg * (3 / 16)) ∧
    buf_chan (diffuse width height buf x y er eg eb) ((y + 1) * width + (x - 1)) 2 =
      clamp_u8 (buf_chan buf ((y + 1) * width + (x - 1)) 2 + eb * (3 / 16)) := by
  have k4 : (0:ℤ) ≤ (x:ℤ) + 1 → (0:ℤ) ≤ (y:ℤ) + 1 → (x:ℤ) + 1 < (width:ℤ) →
      (y:ℤ) + 1 < (height:ℤ) →
      (y + 1) * width + (x - 1) ≠ ((y:ℤ) + 1).toNat * width + ((x:ℤ) + 1).toNat := by
    intro _ _ _ _
    have e1 : ((y:ℤ) + 1).toNat = y + 1 := by omega
    have e2 : ((x:ℤ) + 1).toNat = x + 1 := by omega
    rw [e1, e2]
    exact same_row_flat_ne width (y + 1) (x - 1) (x + 1) (by omega)
  have k3 : (0:ℤ) ≤ (x:ℤ) → (0:ℤ) ≤ (y:ℤ) + 1 → (x:ℤ) < (width:ℤ) →
      (y:ℤ) + 1 < (height:ℤ) →
      (y + 1) * width + (x - 1) ≠ ((y:ℤ) + 1).toNat * width + ((x:ℤ)).toNat := by
    intro _ _ _ _
    have e1 : ((y:ℤ) + 1).toNat = y + 1 := by omega
    have e2 : ((x:ℤ)).toNat = x := by omega
    rw [e1, e2]
    exact same_row_flat_ne width (y + 1) (x - 1) x (by omega)
  have k1 : (0:ℤ) ≤ (x:ℤ) + 1 → (0:ℤ) ≤ (y:ℤ) → (x:ℤ) + 1 < (width:ℤ) →
      (y:ℤ) < (height:ℤ) →
      (y + 1) * width + (x - 1) ≠ ((y:ℤ)).toNat * width + ((x:ℤ) + 1).toNat := by
    intro _ _ hxw _
    have e1 : ((y:ℤ)).toNat = y := by omega
    have e2 : ((x:ℤ) + 1).toNat = x + 1 := by omega
    rw [e1, e2]
    exact (row_flat_ne width y (y + 1) (x + 1) (x - 1) (by omega) (Nat.lt_succ_self y)).symm
  have hlen1 : (add_error width height buf ((x:ℤ) + 1) (y:ℤ) er eg eb (7 / 16)).length =
      width * height * 3 := by rw [add_error_length, hbuf]
  obtain ⟨E0, E1, E2⟩ := add_error_chan_eq width height
    (add_error width height buf ((x:ℤ) + 1) (y:ℤ) er eg eb (7 / 16))
    ((x:ℤ) - 1) ((y:ℤ) + 1) er eg eb (3 / 16)
    (by omega) (by omega) (by omega) (by omega) hlen1
  have e1 : ((y:ℤ) + 1).toNat = y + 1 := by omega
  have e2 : ((x:ℤ) - 1).toNat = x - 1 := by omega
  rw [e1, e2] at E0 E1 E2
  unfold diffuse
  refine ⟨?_, ?_, ?_⟩
  · rw [add_error_chan_ne _ _ _ _ _ _ _ _ _ _ 0 (by omega) k4,
      add_error_chan_ne _ _ _ _ _ _ _ _ _ _ 0 (by omega) k3, E0,
      add_error_chan_ne _ _ _ _ _ _ _ _ _ _ 0 (by omega) k1]
  · rw [add_error_chan_ne _ _ _ _ _ _ _ _ _ _ 1 (by omega) k4,
      add_error_chan_ne _ _ _ _ _ _ _ _ _ _ 1 (by omega) k3, E1,
      add_error_chan_ne _ _ _ _ _ _ _ _ _ _ 1 (by omega) k1]
  · rw [add_error_chan_ne _ _ _ _ _ _ _ _ _ _ 2 (by omega) k4,
      add_error_chan_ne _ _ _ _ _ _ _ _ _ _ 2 (by omega) k3, E2,
      add_error_chan_ne _ _ _ _ _ _ _ _ _ _ 2 (by omega) k1]

theorem diffuse_t3 (width height : Nat) (buf : List ℚ) (x y : Nat) (er eg eb : ℚ)
    (hbuf : buf.length = width * height * 3) (hx : x < width) (hy1 : y + 1 < height) :
    buf_chan (diffuse width height buf x y er eg eb) ((y + 1) * width + x) 0 =
      clamp_u8 (buf_chan buf ((y + 1) * width + x) 0 + er * (5 / 16)) ∧
    buf_chan (diffuse width height buf x y er eg eb) ((y + 1) * width + x) 1 =
      clamp_u8 (buf_chan buf ((y + 1) * width + x) 1 + eg * (5 / 16)) ∧
    buf_chan (diffuse width height buf x y er eg eb) ((y + 1) * width + x) 2 =
      clamp_u8 (buf_chan buf ((y + 1) * width + x) 2 + eb * (5 / 16)) := by
  have k4 : (0:ℤ) ≤ (x:ℤ) + 1 → (0:ℤ) ≤ (y:ℤ) + 1 → (x:ℤ) + 1 < (width:ℤ) →
      (y:ℤ) + 1 < (height:ℤ) →
      (y + 1) * width + x ≠ ((y:ℤ) + 1).toNat * width + ((x:ℤ) + 1).toNat := by
    intro _ _ _ _
    have e1 : ((y:ℤ) + 1).toNat = y + 1 := by omega
    have e2 : ((x:ℤ) + 1).toNat = x + 1 := by omega
    rw [e1, e2]
    exact same_row_flat_ne width (y + 1) x (x + 1) (by omega)
  have k2 : (0:ℤ) ≤ (x:ℤ) - 1 → (0:ℤ) ≤ (y:ℤ) + 1 → (x:ℤ) - 1 < (width:ℤ) →
      (y:ℤ) + 1 < (height:ℤ) →
      (y + 1) * width + x ≠ ((y:ℤ) + 1).toNat * width + ((x:ℤ) - 1).toNat := by
    intro hx1 _ _ _
    have e1 : ((y:ℤ) + 1).toNat = y + 1 := by omega
    have e2 : ((x:ℤ) - 1).toNat = x - 1 := by omega
    rw [e1, e2]
    exact same_row_flat_ne width (y + 1) x (x - 1) (by omega)
  have k1 : (0:ℤ) ≤ (x:ℤ) + 1 → (0:ℤ) ≤ (y:ℤ) → (x:ℤ) + 1 < (width:ℤ) →
      (y:ℤ) < (height:ℤ) →
      (y + 1) * width + x ≠ ((y:ℤ)).toNat * width + ((x:ℤ) + 1).toNat := by
    intro _ _ hxw _
    have e1 : ((y:ℤ)).toNat = y := by omega
    have e2 : ((x:ℤ) + 1).toNat = x + 1 := by omega
    rw [e1, e2]
    exact (row_flat_ne width y (y + 1) (x + 1) x (by omega) (Nat.lt_succ_self y)).symm
  have hlen2 : (add_error width height
      (add_error width height buf ((x:ℤ) + 1) (y:ℤ) er eg eb (7 / 16))
      ((x:ℤ) - 1) ((y:ℤ) + 1) er eg eb (3 / 16)).length = width * height * 3 := by
    rw [add_error_length, add_error_length, hbuf]
  obtain ⟨E0, E1, E2⟩ := add_error_chan_eq width height
    (add_error width height
      (add_error width height buf ((x:ℤ) + 1) (y:ℤ) er eg eb (7 / 16))
      ((x:ℤ) - 1) ((y:ℤ) + 1) er eg eb (3 / 16))
    ((x:ℤ)) ((y:ℤ) + 1) er eg eb (5 / 16)
    (by omega) (by omega) (by omega) (by omega) hlen2
  have e1 : ((y:ℤ) + 1).toNat = y + 1 := by omega
  have e2 : ((x:ℤ)).toNat = x := by omega
  rw [e1, e2] at E0 E1 E2
  unfold diffuse
  refine ⟨?_, ?_, ?_⟩
  · rw [add_error_chan_ne _ _ _ _ _ _ _ _ _ _ 0 (by omega) k4, E0,
      add_error_chan_ne _ _ _ _ _ _ _ _ _ _ 0 (by omega) k2,
      add_error_chan_ne _ _ _ _ _ _ _ _ _ _ 0 (by omega) k1]
  · rw [add_error_chan_ne _ _ _ _ _ _ _ _ _ _ 1 (by omega) k4, E1,
      add_error_chan_ne _ _ _ _ _ _ _ _ _ _ 1 (by omega) k2,
      add_error_chan_ne _ _ _ _ _ _ _ _ _ _ 1 (by omega) k1]
  · rw [add_error_chan_ne _ _ _ _ _ _ _ _ _ _ 2 (by omega) k4, E2,
      add_error_chan_ne _ _ _ _ _ _ _ _ _ _ 2 (by omega) k2,
      add_error_chan_ne _ _ _ _ _ _ _ _ _ _ 2 (by omega) k1]

theorem diffuse_t4 (width height : Nat) (buf : List ℚ) (x y : Nat) (er eg eb : ℚ)
    (hbuf : buf.length = width * height * 3) (hx1 : x + 1 < width) (hy1 : y + 1 < height) :
    buf_chan (diffuse width height buf x y er eg eb) ((y + 1) * width + (x + 1)) 0 =
      clamp_u8 (buf_chan buf ((y + 1) * width + (x + 1)) 0 + er * (1 / 16)) ∧
    buf_chan (diffuse width height buf x y er eg eb) ((y + 1) * width + (x + 1)) 1 =
      clamp_u8 (buf_chan buf ((y + 1) * width + (x + 1)) 1 + eg * (1 / 16)) ∧
    buf_chan (diffuse width height buf x y er eg eb) ((y + 1) * width + (x + 1)) 2 =
      clamp_u8 (buf_chan buf ((y + 1) * width + (x + 1)) 2 + eb * (1 / 16)) := by
  have k3 : (0:ℤ) ≤ (x:ℤ) → (0:ℤ) ≤ (y:ℤ) + 1 → (x:ℤ) < (width:ℤ) →
      (y:ℤ) + 1 < (height:ℤ) →
      (y + 1) * width + (x + 1) ≠ ((y:ℤ) + 1).toNat * width + ((x:ℤ)).toNat := by
    intro _ _ _ _
    have e1 : ((y:ℤ) + 1).toNat = y + 1 := by omega
    have e2 : ((x:ℤ)).toNat = x := by omega
    rw [e1, e2]
    exact same_row_flat_ne width (y + 1) (x + 1) x (by omega)
  have k2 : (0:ℤ) ≤ (x:ℤ) - 1 → (0:ℤ) ≤ (y:ℤ) + 1 → (x:ℤ) - 1 < (width:ℤ) →
      (y:ℤ) + 1 < (height:ℤ) →
      (y + 1) * width + (x + 1) ≠ ((y:ℤ) + 1).toNat * width + ((x:ℤ) - 1).toNat := by
    intro hx0 _ _ _
    have e1 : ((y:ℤ) + 1).toNat = y + 1 := by omega
    have e2 : ((x:ℤ) - 1).toNat = x - 1 := by omega
    rw [e1, e2]
    exact same_row_flat_ne width (y + 1) (x + 1) (x - 1) (by omega)
  have k1 : (0:ℤ) ≤ (x:ℤ) + 1 → (0:ℤ) ≤ (y:ℤ) → (x:ℤ) + 1 < (width:ℤ) →
      (y:ℤ) < (height:ℤ) →
      (y + 1) * width + (x + 1) ≠ ((y:ℤ)).toNat * width + ((x:ℤ) + 1).toNat := by
    intro _ _ hxw _
    have e1 : ((y:ℤ)).toNat = y := by omega
    have e2 : ((x:ℤ) + 1).toNat = x + 1 := by omega
    rw [e1, e2]
    exact (row_flat_ne width y (y + 1) (x + 1) (x + 1) (by omega) (Nat.lt_succ_self y)).symm
  have hlen3 : (add_error width height
      (add_error width height
        (add_error width height buf ((x:ℤ) + 1) (y:ℤ) er eg eb (7 / 16))
        ((x:ℤ) - 1) ((y:ℤ) + 1) er eg eb (3 / 16))
      ((x:ℤ)) ((y:ℤ) + 1) er eg eb (5 / 16)).length = width * height * 3 := by
    rw [add_error_length, add_error_length, add_error_length, hbuf]
  obtain ⟨E0, E1, E2⟩ := add_error_chan_eq width height
    (add_error width height
      (add_error width height
        (add_error width height buf ((x:ℤ) + 1) (y:ℤ) er eg eb (7 / 16))
        ((x:ℤ) - 1) ((y:ℤ) + 1) er eg eb (3 / 16))
      ((x:ℤ)) ((y:ℤ) + 1) er eg eb (5 / 16))
    ((x:ℤ) + 1) ((y:ℤ) + 1) er eg eb (1 / 16)
    (by omega) (by omega) (by omega) (by omega) hlen3
  have e1 : ((y:ℤ) + 1).toNat = y + 1 := by omega
  have e2 : ((x:ℤ) + 1).toNat = x + 1 := by omega
  rw [e1, e2] at E0 E1 E2
  unfold diffuse
  refine ⟨?_, ?_, ?_⟩
  · rw [E0, add_error_chan_ne _ _ _ _ _ _ _ _ _ _ 0 (by omega) k3,
      add_error_chan_ne _ _ _ _ _ _ _ _ _ _ 0 (by omega) k2,
      add_error_chan_ne _ _ _ _ _ _ _ _ _ _ 0 (by omega) k1]
  · rw [E1, add_error_chan_ne _ _ _ _ _ _ _ _ _ _ 1 (by omega) k3,
      add_error_chan_ne _ _ _ _ _ _ _ _ _ _ 1 (by omega) k2,
      add_error_chan_ne _ _ _ _ _ _ _ _ _ _ 1 (by omega) k1]
  · rw [E2, add_error_chan_ne _ _ _ _ _ _ _ _ _ _ 2 (by omega) k3,
      add_error_chan_ne _ _ _ _ _ _ _ _ _ _ 2 (by omega) k2,
      add_error_chan_ne _ _ _ _ _ _ _ _ _ _ 2 (by omega) k1]

theorem diffuse_unchanged (width height : Nat) (buf : List ℚ) (x y : Nat) (er eg eb : ℚ)
    (q c : Nat) (hc : c < 3)
    (h1 : x + 1 < width → y < height → q ≠ y * width + (x + 1))
    (h2 : 1 ≤ x → y + 1 < height → q ≠ (y + 1) * width + (x - 1))
    (h3 : x < width → y + 1 < height → q ≠ (y + 1) * width + x)
    (h4 : x + 1 < width → y + 1 < height → q ≠ (y + 1) * width + (x + 1)) :
    buf_chan (diffuse width height buf x y er eg eb) q c = buf_chan buf q c := by
  have k4 : (0:ℤ) ≤ (x:ℤ) + 1 → (0:ℤ) ≤ (y:ℤ) + 1 → (x:ℤ) + 1 < (width:ℤ) →
      (y:ℤ) + 1 < (height:ℤ) → q ≠ ((y:ℤ) + 1).toNat * width + ((x:ℤ) + 1).toNat := by
    intro _ _ _ _
    have e1 : ((y:ℤ) + 1).toNat = y + 1 := by omega
    have e2 : ((x:ℤ) + 1).toNat = x + 1 := by omega
    rw [e1, e2]
    exact h4 (by omega) (by omega)
  have k3 : (0:ℤ) ≤ (x:ℤ) → (0:ℤ) ≤ (y:ℤ) + 1 → (x:ℤ) < (width:ℤ) →
      (y:ℤ) + 1 < (height:ℤ) → q ≠ ((y:ℤ) + 1).toNat * width + ((x:ℤ)).toNat := by
    intro _ _ _ _
    have e1 : ((y:ℤ) + 1).toNat = y + 1 := by omega
    have e2 : ((x:ℤ)).toNat = x := by omega
    rw [e1, e2]
    exact h3 (by omega) (by omega)
  have k2 : (0:ℤ) ≤ (x:ℤ) - 1 → (0:ℤ) ≤ (y:ℤ) + 1 → (x:ℤ) - 1 < (width:ℤ) →
      (y:ℤ) + 1 < (height:ℤ) → q ≠ ((y:ℤ) + 1).toNat * width + ((x:ℤ) - 1).toNat := by
    intro hx0 _ _ _
    have e1 : ((y:ℤ) + 1).toNat = y + 1 := by omega
    have e2 : ((x:ℤ) - 1).toNat = x - 1 := by omega
    rw [e1, e2]
    exact h2 (by omega) (by omega)
  have k1 : (0:ℤ) ≤ (x:ℤ) + 1 → (0:ℤ) ≤ (y:ℤ) → (x:ℤ) + 1 < (width:ℤ) →
      (y:ℤ) < (height:ℤ) → q ≠ ((y:ℤ)).toNat * width + ((x:ℤ) + 1).toNat := by
    intro _ _ _ _
    have e1 : ((y:ℤ)).toNat = y := by omega
    have e2 : ((x:ℤ) + 1).toNat = x + 1 := by omega
    rw [e1, e2]
    exact h1 (by omega) (by omega)
  unfold diffuse
  rw [add_error_chan_ne _ _ _ _ _ _ _ _ _ _ c hc k4,
    add_error_chan_ne _ _ _ _ _ _ _ _ _ _ c hc k3,
    add_error_chan_ne _ _ _ _ _ _ _ _ _ _ c hc k2,
    add_error_chan_ne _ _ _ _ _ _ _ _ _ _ c hc k1]

/-! ### Data preservation and baseline deviation -/

theorem process_preserves_data (width height : Nat) (pal : List Color) (st : ℚ)
    (x y : Nat) (s s₁ : QState)
    (hproc : process_pixel width height pal st x y s = .ok s₁) : s₁.data = s.data := by
  by_cases hpal : pal = []
  · subst hpal
    rw [process_pixel_empty] at hproc
    cases hproc
  · obtain ⟨s₂, hp2, hdata, _, _⟩ := process_pixel_ok width height pal st x y s hpal
    rw [hp2] at hproc
    injection hproc with h
    rw [← h]
    exact hdata

theorem run_preserves_data (width height : Nat) (pal : List Color) (st : ℚ) :
    ∀ (ps : List (Nat × Nat)) (s s' : QState),
      run_pixels width height pal st ps s = .ok s' → s'.data = s.data := by
  intro ps
  induction ps with
  | nil =>
    intro s s' h
    rw [run_pixels_nil] at h
    injection h with h2
    rw [← h2]
  | cons p t ih =>
    intro s s' h
    cases hproc : process_pixel width height pal st p.1 p.2 s with
    | error e =>
      rw [run_pixels_cons_err _ _ _ _ p t s e hproc] at h
      cases h
    | ok s₁ =>
      rw [run_pixels_cons_ok _ _ _ _ p t s s₁ hproc] at h
      rw [ih s₁ s' h, process_preserves_data _ _ _ _ _ _ _ _ hproc]

theorem countP_zip_self (l : List Nat) :
    ((l.zip l).countP fun p => p.1 != p.2) = 0 := by
  induction l with
  | nil => rfl
  | cons a t ih => simp [List.zip_cons_cons, List.countP_cons, ih]

theorem flat3_length (pal : List Color) :
    (pal.flatMap fun c => [c.1, c.2.1, c.2.2]).length = 3 * pal.length := by
  induction pal with
  | nil => rfl
  | cons c t ih =>
    rw [List.flatMap_cons, List.length_append, ih]
    simp [Nat.mul_succ]
    omega

theorem flat3_getD (pal : List Color) :
    ∀ (rest : List ℚ) (i : Nat), i < pal.length →
      ((pal.flatMap fun c => [c.1, c.2.1, c.2.2]) ++ rest).getD (3 * i) 0 =
        (pal.getD i (0, 0, 0)).1 ∧
      ((pal.flatMap fun c => [c.1, c.2.1, c.2.2]) ++ rest).getD (3 * i + 1) 0 =
        (pal.getD i (0, 0, 0)).2.1 ∧
      ((pal.flatMap fun c => [c.1, c.2.1, c.2.2]) ++ rest).getD (3 * i + 2) 0 =
        (pal.getD i (0, 0, 0)).2.2 := by
  induction pal with
  | nil =>
    intro rest i hi
    simp at hi
  | cons c t ih =>
    intro rest i hi
    cases i with
    | zero => exact ⟨rfl, rfl, rfl⟩
    | succ i' =>
      have hflat : ((c :: t).flatMap fun c => [c.1, c.2.1, c.2.2]) ++ rest =
          c.1 :: c.2.1 :: c.2.2 :: ((t.flatMap fun c => [c.1, c.2.1, c.2.2]) ++ rest) := rfl
      have hidx : ∀ (a b z : ℚ) (ls : List ℚ) (n : Nat) (d : ℚ),
          (a :: b :: z :: ls).getD (n + 3) d = ls.getD n d := fun _ _ _ _ _ _ => rfl
      have h3 : 3 * (i' + 1) = 3 * i' + 3 := by omega
      rw [hflat, h3]
      have h3a : 3 * i' + 3 + 1 = (3 * i' + 1) + 3 := by omega
      have h3b : 3 * i' + 3 + 2 = (3 * i' + 2) + 3 := by omega
      rw [h3a, h3b, hidx, hidx, hidx]
      have hr : ∀ (d : Color), (c :: t).getD (i' + 1) d = t.getD i' d := fun _ => rfl
      rw [hr]
      exact ih rest i' (by simpa using hi)

/-! ### Claims -/

/-- C2: for every non-empty palette and every input color,
`nearest_palette_index` returns an in-range index attaining the minimal
squared Euclidean RGB distance, and on ties the lowest index wins: every
strictly earlier palette entry has strictly larger distance.  As a Lean
function the scan is trivially pure (no side effects exist in the
embedding). -/
theorem claim_C2 (r g b : ℚ) (pal : List Color) (hne : pal ≠ []) :
    nearest_palette_index r g b pal < pal.length ∧
    (∀ j, j < pal.length →
      sq_dist r g b (pal.getD (nearest_palette_index r g b pal) (0, 0, 0)) ≤
        sq_dist r g b (pal.getD j (0, 0, 0))) ∧
    (∀ j, j < nearest_palette_index r g b pal →
      sq_dist r g b (pal.getD (nearest_palette_index r g b pal) (0, 0, 0)) <
        sq_dist r g b (pal.getD j (0, 0, 0))) :=
  nearest_spec r g b pal hne

/-- Witness for C2 at the color (10,10,10) and the black/white palette. -/
theorem claim_C2_witness :
    nearest_palette_index 10 10 10 bwPalette < bwPalette.length ∧
    (∀ j, j < bwPalette.length →
      sq_dist 10 10 10 (bwPalette.getD (nearest_palette_index 10 10 10 bwPalette) (0, 0, 0)) ≤
        sq_dist 10 10 10 (bwPalette.getD j (0, 0, 0))) ∧
    (∀ j, j < nearest_palette_index 10 10 10 bwPalette →
      sq_dist 10 10 10 (bwPalette.getD (nearest_palette_index 10 10 10 bwPalette) (0, 0, 0)) <
        sq_dist 10 10 10 (bwPalette.getD j (0, 0, 0))) :=
  claim_C2 10 10 10 bwPalette (by decide)

/-- C5: error diffusion never touches the buffer outside its bounds: a
diffusion write whose target coordinates are out of range is silently
dropped (the buffer is returned unchanged, so there is no wraparound into
another row), the buffer length never changes, and an in-bounds write only
modifies the three channel slots of its target pixel, all of which lie
inside the flat buffer. -/
theorem claim_C5 (width height : Nat) (buf : List ℚ) (x y : ℤ) (er eg eb f : ℚ)
    (hbuf : buf.length = width * height * 3) :
    ((x < 0 ∨ y < 0 ∨ (width : ℤ) ≤ x ∨ (height : ℤ) ≤ y) →
      add_error width height buf x y er eg eb f = buf) ∧
    (add_error width height buf x y er eg eb f).length = buf.length ∧
    (0 ≤ x → 0 ≤ y → x < (width : ℤ) → y < (height : ℤ) →
      (y.toNat * width + x.toNat) * 3 + 2 < buf.length ∧
      ∀ j, j < (y.toNat * width + x.toNat) * 3 ∨ (y.toNat * width + x.toNat) * 3 + 2 < j →
        (add_error width height buf x y er eg eb f).getD j 0 = buf.getD j 0) := by
  refine ⟨fun h => add_error_oob _ _ _ _ _ _ _ _ _ h,
    add_error_length _ _ _ _ _ _ _ _ _, ?_⟩
  intro hx0 hy0 hxw hyh
  have hxw' : x.toNat < width := by omega
  have hyh' : y.toNat < height := by omega
  have hpi := flat_lt x.toNat y.toNat width height hxw' hyh'
  refine ⟨by omega, ?_⟩
  intro j hj
  have hg : ¬ (x < 0 ∨ y < 0 ∨ (width : ℤ) ≤ x ∨ (height : ℤ) ≤ y) := by omega
  unfold add_error
  rw [if_neg hg]
  set pi := y.toNat * width + x.toNat with hpidef
  rw [getD_set_ne _ _ _ _ _ (by omega), getD_set_ne _ _ _ _ _ (by omega),
    getD_set_ne _ _ _ _ _ (by omega)]

/-- Witness for C5 on a 1x1 buffer with the out-of-bounds target (1, 0). -/
theorem claim_C5_witness :
    ((((1:ℤ)) < 0 ∨ ((0:ℤ)) < 0 ∨ ((1:Nat) : ℤ) ≤ 1 ∨ ((1:Nat) : ℤ) ≤ 0) →
      add_error 1 1 [(9:ℚ), 9, 9] 1 0 2 2 2 (7 / 16) = [(9:ℚ), 9, 9]) ∧
    (add_error 1 1 [(9:ℚ), 9, 9] 1 0 2 2 2 (7 / 16)).length = [(9:ℚ), 9, 9].length ∧
    (0 ≤ (1:ℤ) → 0 ≤ (0:ℤ) → (1:ℤ) < ((1:Nat) : ℤ) → (0:ℤ) < ((1:Nat) : ℤ) →
      (((0:ℤ).toNat * 1 + (1:ℤ).toNat) * 3 + 2 < [(9:ℚ), 9, 9].length ∧
      ∀ j, j < ((0:ℤ).toNat * 1 + (1:ℤ).toNat) * 3 ∨
          ((0:ℤ).toNat * 1 + (1:ℤ).toNat) * 3 + 2 < j →
        (add_error 1 1 [(9:ℚ), 9, 9] 1 0 2 2 2 (7 / 16)).getD j 0 =
          [(9:ℚ), 9, 9].getD j 0)) :=
  claim_C5 1 1 [(9:ℚ), 9, 9] 1 0 2 2 2 (7 / 16) (by decide)

/-- C4: for every non-empty palette the quantizer succeeds, the output image
has exactly the input width and height with W*H index entries, and every
entry is an index in [0, N-1]. -/
theorem claim_C4 (img : InImage) (pal : List Color) (ds : ℚ) (hpal : pal ≠ []) :
    ∃ out, quantize_with_dither_strength img pal ds = .ok out ∧
      out.width = img.width ∧ out.height = img.height ∧
      out.data.length = img.width * img.height ∧
      ∀ j, j < out.data.length → out.data.getD j 0 < pal.length := by
  obtain ⟨out, h1, h2, h3, _, h5, h6⟩ := quantize_total img pal ds hpal
  exact ⟨out, h1, h2, h3, h5, h6⟩

/-- Witness for C4 on the 2x2 checker scenario at strength 1. -/
theorem claim_C4_witness :
    ∃ out, quantize_with_dither_strength
        ⟨2, 2, [(10, 10, 10), (250, 250, 250), (10, 10, 10), (250, 250, 250)]⟩
        bwPalette 1 = .ok out ∧
      out.width = (⟨2, 2, [(10, 10, 10), (250, 250, 250), (10, 10, 10), (250, 250, 250)]⟩ :
        InImage).width ∧
      out.height = (⟨2, 2, [(10, 10, 10), (250, 250, 250), (10, 10, 10), (250, 250, 250)]⟩ :
        InImage).height ∧
      out.data.length = 2 * 2 ∧
      ∀ j, j < out.data.length → out.data.getD j 0 < bwPalette.length :=
  claim_C4 ⟨2, 2, [(10, 10, 10), (250, 250, 250), (10, 10, 10), (250, 250, 250)]⟩
    bwPalette 1 (by decide)

/-- C6 counterexample: on a zero-area buffer the quantizer does not fail at
all: it returns an empty indexed image successfully.  The claimed
`EmptyImage` failure for W=0 or H=0 does not exist anywhere in the code. -/
theorem claim_C6_counterexample :
    quantize_with_dither_strength ⟨0, 0, []⟩ PALETTE 1 =
      .ok ⟨0, 0, make_palette_flat PALETTE, []⟩ := rfl

/-- C6 amended: quantization raises no exception for malformed geometry
beyond clamping the strength: with a non-empty palette every call returns
`.ok`, and a zero-area buffer (W=0 or H=0) yields an empty indexed output
without error — the code defines no `EmptyImage` error. -/
theorem claim_C6_amended (img : InImage) (pal : List Color) (ds : ℚ) :
    (pal ≠ [] → ∃ out, quantize_with_dither_strength img pal ds = .ok out) ∧
    (img.width = 0 ∨ img.height = 0 →
      quantize_with_dither_strength img pal ds =
        .ok ⟨img.width, img.height, make_palette_flat pal, []⟩) := by
  constructor
  · intro hpal
    obtain ⟨out, h1, _⟩ := quantize_total img pal ds hpal
    exact ⟨out, h1⟩
  · exact quantize_empty_geom img pal ds

/-- Witness for the amended C6 on a 0x5 buffer with the panel palette. -/
theorem claim_C6_witness :
    (∃ out, quantize_with_dither_strength ⟨0, 5, []⟩ PALETTE 1 = .ok out) ∧
    quantize_with_dither_strength ⟨0, 5, []⟩ PALETTE 1 =
      .ok ⟨0, 5, make_palette_flat PALETTE, []⟩ :=
  ⟨(claim_C6_amended ⟨0, 5, []⟩ PALETTE 1).1 (by decide),
   (claim_C6_amended ⟨0, 5, []⟩ PALETTE 1).2 (Or.inl rfl)⟩

set_option maxRecDepth 100000 in
/-- C7 counterexample: building the flat palette table from 257 entries does
not fail: it returns a 771-entry table (and an empty sequence yields the
768-entry all-black table, also without failure).  No `InvalidPalette`
validation exists in the code. -/
theorem claim_C7_counterexample :
    (make_palette_flat (List.replicate 257 ((1 : ℚ), (2 : ℚ), (3 : ℚ)))).length = 771 ∧
    (make_palette_flat []).length = 768 := by decide

/-- C7 amended: the palette builders store the given colors in order with no
deduplication, padding with black up to 256 entries when fewer are given,
and perform no validation at all: an empty sequence yields the all-black
768-entry table and an overlong sequence is emitted unpadded (257 colors
give 771 entries); no `InvalidPalette` error is raised by this code
(`make_palette_image` hands the same data to the external PIL `putpalette`
without checking). -/
theorem claim_C7_amended (pal : List Color) :
    (make_palette_flat pal).length = 3 * max 256 pal.length ∧
    (∀ i, i < pal.length →
      (make_palette_flat pal).getD (3 * i) 0 = (pal.getD i (0, 0, 0)).1 ∧
      (make_palette_flat pal).getD (3 * i + 1) 0 = (pal.getD i (0, 0, 0)).2.1 ∧
      (make_palette_flat pal).getD (3 * i + 2) 0 = (pal.getD i (0, 0, 0)).2.2) ∧
    make_palette_image pal = ⟨make_palette_flat pal⟩ := by
  refine ⟨?_, ?_, rfl⟩
  · unfold make_palette_flat
    rw [List.length_append, flat3_length]
    have hpad : ((List.replicate (256 - pal.length) ([0, 0, 0] : List ℚ)).flatten).length =
        (256 - pal.length) * 3 := by
      rw [List.length_flatten]
      induction (256 - pal.length) with
      | zero => rfl
      | succ n ihn =>
        rw [List.replicate_succ, List.map_cons, List.sum_cons, ihn]
        simp [Nat.succ_mul]
        omega
    rw [hpad]
    omega
  · intro i hi
    exact flat3_getD pal _ i hi

/-- Witness for the amended C7 on a two-entry palette with duplicated
colors (stored twice, in order). -/
theorem claim_C7_witness :
    (make_palette_flat [((1:ℚ), (2:ℚ), (3:ℚ)), ((1:ℚ), (2:ℚ), (3:ℚ))]).length =
      3 * max 256 ([((1:ℚ), (2:ℚ), (3:ℚ)), ((1:ℚ), (2:ℚ), (3:ℚ))] : List Color).length ∧
    (make_palette_flat [((1:ℚ), (2:ℚ), (3:ℚ)), ((1:ℚ), (2:ℚ), (3:ℚ))]).getD (3 * 1) 0 =
      (([((1:ℚ), (2:ℚ), (3:ℚ)), ((1:ℚ), (2:ℚ), (3:ℚ))] : List Color).getD 1 (0, 0, 0)).1 ∧
    make_palette_image [((1:ℚ), (2:ℚ), (3:ℚ)), ((1:ℚ), (2:ℚ), (3:ℚ))] =
      ⟨make_palette_flat [((1:ℚ), (2:ℚ), (3:ℚ)), ((1:ℚ), (2:ℚ), (3:ℚ))]⟩ :=
  ⟨(claim_C7_amended [((1:ℚ), (2:ℚ), (3:ℚ)), ((1:ℚ), (2:ℚ), (3:ℚ))]).1,
   ((claim_C7_amended [((1:ℚ), (2:ℚ), (3:ℚ)), ((1:ℚ), (2:ℚ), (3:ℚ))]).2.1 1 (by decide)).1,
   (claim_C7_amended [((1:ℚ), (2:ℚ), (3:ℚ)), ((1:ℚ), (2:ℚ), (3:ℚ))]).2.2⟩

/-- C10: `nearest_palette_index` called with an empty palette returns 0
without raising (the scan loop never runs, leaving the initial
`best_idx`), and the quantizer invoked with an empty palette on a buffer
with at least one pixel fails with the IndexError raised by the palette
lookup `palette_rgb[pal_idx]` — not with an `InvalidPalette` error. -/
theorem claim_C10 (r g b : ℚ) (img : InImage) (ds : ℚ)
    (hw : 0 < img.width) (hh : 0 < img.height) :
    nearest_palette_index r g b [] = 0 ∧
    quantize_with_dither_strength img [] ds = .error .indexError :=
  ⟨rfl, quantize_empty_palette img ds hw hh⟩

/-- Witness for C10 on a 1x1 image. -/
theorem claim_C10_witness :
    nearest_palette_index 5 5 5 [] = 0 ∧
    quantize_with_dither_strength ⟨1, 1, [(9, 9, 9)]⟩ [] 1 = .error .indexError :=
  claim_C10 5 5 5 ⟨1, 1, [(9, 9, 9)]⟩ 1 (by decide) (by decide)

/-- C9 counterexample: on the fixed 8x1 gray-ramp gradient with the
black/white palette, the count of pixels deviating from the strength-0
baseline is 2 at strength 3/16 but only 1 at strength 1/4: for
s1 = 3/16 ≤ s2 = 1/4, both in [0,1], the deviation strictly decreases, so
the claimed monotonicity fails. -/
theorem claim_C9_counterexample :
    (3 / 16 : ℚ) ≤ 1 / 4 ∧ (0 : ℚ) ≤ 3 / 16 ∧ (1 / 4 : ℚ) ≤ 1 ∧
    deviation_count rampImage bwPalette (3 / 16) = 2 ∧
    deviation_count rampImage bwPalette (1 / 4) = 1 := by decide

/-- C9 amended: the deviation count from the strength-0 baseline is not
monotone in the strength (see the counterexample); what survives is the
s1 = 0 instance of the claim: the baseline deviates from itself in zero
pixels, so the count at strength 0 is a lower bound for the count at every
other strength. -/
theorem claim_C9_amended (img : InImage) (pal : List Color) (s : ℚ) :
    deviation_count img pal 0 = 0 ∧
    deviation_count img pal 0 ≤ deviation_count img pal s := by
  have h0 : deviation_count img pal 0 = 0 := by
    unfold deviation_count
    exact countP_zip_self _
  exact ⟨h0, by rw [h0]; exact Nat.zero_le _⟩

/-- C3: when the dithering strength (after clamping) is ≤ 0 the quantizer
performs no diffusion at all: it succeeds, and every output index equals
the nearest-palette index of that pixel's original, undiffused color.
Consequently the output is independent of the pixel visit order: running
the per-pixel step over any coordinate list that covers every pixel yields
exactly the same final state as the raster-order scan. -/
theorem claim_C3 (img : InImage) (pal : List Color) (ds : ℚ)
    (hpal : pal ≠ []) (hds : ds ≤ 0)
    (hdata : img.data.length = img.width * img.height) :
    ∃ out, quantize_with_dither_strength img pal ds = .ok out ∧
      out.data.length = img.width * img.height ∧
      (∀ j, j < img.width * img.height →
        out.data.getD j 0 =
          nearest_palette_index ((img.data.getD j (0, 0, 0)).1 : ℚ)
            ((img.data.getD j (0, 0, 0)).2.1 : ℚ)
            ((img.data.getD j (0, 0, 0)).2.2 : ℚ) pal) ∧
      (∀ ps : List (Nat × Nat),
        (∀ j, j < img.width * img.height → ∃ p ∈ ps, p.2 * img.width + p.1 = j) →
        run_pixels img.width img.height pal (max 0 (min 1 ds)) ps (init_state img) =
          .ok ⟨img.data, init_buf (img.width * img.height) img.data, out.data⟩) :=
  quantize_zero_spec img pal ds hpal hds hdata

/-- Witness for C3 on the 2x2 checker scenario at strength 0. -/
theorem claim_C3_witness :
    ∃ out, quantize_with_dither_strength
        ⟨2, 2, [(10, 10, 10), (250, 250, 250), (10, 10, 10), (250, 250, 250)]⟩
        bwPalette 0 = .ok out ∧
      out.data.length = 2 * 2 ∧
      (∀ j, j < 2 * 2 →
        out.data.getD j 0 =
          nearest_palette_index
            ((([(10, 10, 10), (250, 250, 250), (10, 10, 10), (250, 250, 250)] :
              List (Nat × Nat × Nat)).getD j (0, 0, 0)).1 : ℚ)
            ((([(10, 10, 10), (250, 250, 250), (10, 10, 10), (250, 250, 250)] :
              List (Nat × Nat × Nat)).getD j (0, 0, 0)).2.1 : ℚ)
            ((([(10, 10, 10), (250, 250, 250), (10, 10, 10), (250, 250, 250)] :
              List (Nat × Nat × Nat)).getD j (0, 0, 0)).2.2 : ℚ) bwPalette) ∧
      (∀ ps : List (Nat × Nat),
        (∀ j, j < 2 * 2 → ∃ p ∈ ps, p.2 * 2 + p.1 = j) →
        run_pixels 2 2 bwPalette (max 0 (min 1 0)) ps
          (init_state ⟨2, 2, [(10, 10, 10), (250, 250, 250), (10, 10, 10), (250, 250, 250)]⟩) =
          .ok ⟨[(10, 10, 10), (250, 250, 250), (10, 10, 10), (250, 250, 250)],
            init_buf (2 * 2) [(10, 10, 10), (250, 250, 250), (10, 10, 10), (250, 250, 250)],
            out.data⟩) :=
  claim_C3 ⟨2, 2, [(10, 10, 10), (250, 250, 250), (10, 10, 10), (250, 250, 250)]⟩
    bwPalette 0 (by decide) (by decide) (by decide)

/-- C8: the quantizer never mutates the decoded input pixels or the
palette: the raster loop threads the input pixel list through every step
unchanged (diffusion writes only touch the separately allocated working
buffer), and with no module state the result is a pure function of
(buffer, palette, strength) — two calls with equal inputs yield equal
outputs. -/
theorem claim_C8 (width height : Nat) (pal : List Color) (st : ℚ)
    (img1 img2 : InImage) (pal1 pal2 : List Color) (ds1 ds2 : ℚ) :
    (∀ (ps : List (Nat × Nat)) (s s' : QState),
      run_pixels width height pal st ps s = .ok s' → s'.data = s.data) ∧
    (img1 = img2 → pal1 = pal2 → ds1 = ds2 →
      quantize_with_dither_strength img1 pal1 ds1 =
        quantize_with_dither_strength img2 pal2 ds2) := by
  refine ⟨run_preserves_data width height pal st, ?_⟩
  rintro rfl rfl rfl
  rfl

/-- Witness for C8: a full 1x1 run at strength 1 keeps the input pixel list
in the state unchanged, and repeated equal calls agree. -/
theorem claim_C8_witness :
    (⟨[(7, 7, 7)], init_buf 1 [(7, 7, 7)], [0]⟩ : QState).data =
      (init_state ⟨1, 1, [(7, 7, 7)]⟩).data ∧
    quantize_with_dither_strength ⟨1, 1, [(7, 7, 7)]⟩ bwPalette 1 =
      quantize_with_dither_strength ⟨1, 1, [(7, 7, 7)]⟩ bwPalette 1 :=
  ⟨(claim_C8 1 1 bwPalette 1 ⟨1, 1, [(7, 7, 7)]⟩ ⟨1, 1, [(7, 7, 7)]⟩ bwPalette bwPalette 1 1).1
      [(0, 0)] (init_state ⟨1, 1, [(7, 7, 7)]⟩) ⟨[(7, 7, 7)], init_buf 1 [(7, 7, 7)], [0]⟩
      (by rfl),
   (claim_C8 1 1 bwPalette 1 ⟨1, 1, [(7, 7, 7)]⟩ ⟨1, 1, [(7, 7, 7)]⟩ bwPalette bwPalette 1 1).2
      rfl rfl rfl⟩

/-- C1: one loop iteration at effective strength > 0: the step succeeds,
records the nearest index for the pixel, and distributes the per-channel
residual error (working color minus chosen palette color) scaled by
`strength` to exactly the four Floyd-Steinberg neighbors — `(x+1, y)` with
weight 7/16, `(x-1, y+1)` with 3/16, `(x, y+1)` with 5/16 and
`(x+1, y+1)` with 1/16 — updating every in-bounds target channel to
`clamp(current + error*weight, 0, 255)` and leaving every other pixel of
the working buffer untouched. -/
theorem claim_C1 (width height : Nat) (pal : List Color) (strength : ℚ)
    (s : QState) (x y : Nat)
    (hpal : pal ≠ []) (hs : 0 < strength) (hx : x < width) (hy : y < height)
    (hbuf : s.buf.length = width * height * 3) :
    ∃ s', process_pixel width height pal strength x y s = .ok s' ∧
      s'.data = s.data ∧
      s'.out_idx = s.out_idx.set (y * width + x) (nidx_at s.buf (y * width + x) pal) ∧
      (∀ t ∈ ([((x:ℤ) + 1, (y:ℤ), 7 / 16), ((x:ℤ) - 1, (y:ℤ) + 1, 3 / 16),
               ((x:ℤ), (y:ℤ) + 1, 5 / 16), ((x:ℤ) + 1, (y:ℤ) + 1, 1 / 16)] :
               List (ℤ × ℤ × ℚ)),
        0 ≤ t.1 → 0 ≤ t.2.1 → t.1 < (width:ℤ) → t.2.1 < (height:ℤ) →
        ∀ c, c < 3 →
          buf_chan s'.buf (t.2.1.toNat * width + t.1.toNat) c =
            clamp_u8 (buf_chan s.buf (t.2.1.toNat * width + t.1.toNat) c +
              (buf_chan s.buf (y * width + x) c -
                chanv (pal.getD (nidx_at s.buf (y * width + x) pal) (0, 0, 0)) c) *
                strength * t.2.2)) ∧
      (∀ px py : Nat, px < width → py < height →
        ((px:ℤ), (py:ℤ)) ∉ ([((x:ℤ) + 1, (y:ℤ)), ((x:ℤ) - 1, (y:ℤ) + 1),
          ((x:ℤ), (y:ℤ) + 1), ((x:ℤ) + 1, (y:ℤ) + 1)] : List (ℤ × ℤ)) →
        ∀ c, c < 3 →
          buf_chan s'.buf (py * width + px) c = buf_chan s.buf (py * width + px) c) := by
  have hst : ¬ strength ≤ 0 := not_le.mpr hs
  refine ⟨_, process_pixel_dither width height pal strength x y s hpal hst, rfl, rfl, ?_, ?_⟩
  · intro t ht
    simp only [List.mem_cons, List.not_mem_nil, or_false] at ht
    rcases ht with rfl | rfl | rfl | rfl
    · intro h1 h2 h3 h4 c hc
      dsimp only at h1 h2 h3 h4 ⊢
      have e1 : ((y:ℤ)).toNat = y := by omega
      have e2 : ((x:ℤ) + 1).toNat = x + 1 := by omega
      rw [e1, e2]
      have hx1 : x + 1 < width := by omega
      interval_cases c
      · exact (diffuse_t1 width height s.buf x y _ _ _ hbuf hy hx1).1
      · exact (diffuse_t1 width height s.buf x y _ _ _ hbuf hy hx1).2.1
      · exact (diffuse_t1 width height s.buf x y _ _ _ hbuf hy hx1).2.2
    · intro h1 h2 h3 h4 c hc
      dsimp only at h1 h2 h3 h4 ⊢
      have e1 : ((y:ℤ) + 1).toNat = y + 1 := by omega
      have e2 : ((x:ℤ) - 1).toNat = x - 1 := by omega
      rw [e1, e2]
      have hx0 : 1 ≤ x := by omega
      have hy1 : y + 1 < height := by omega
      interval_cases c
      · exact (diffuse_t2 width height s.buf x y _ _ _ hbuf hx hx0 hy1).1
      · exact (diffuse_t2 width height s.buf x y _ _ _ hbuf hx hx0 hy1).2.1
      · exact (diffuse_t2 width height s.buf x y _ _ _ hbuf hx hx0 hy1).2.2
    · intro h1 h2 h3 h4 c hc
      dsimp only at h1 h2 h3 h4 ⊢
      have e1 : ((y:ℤ) + 1).toNat = y + 1 := by omega
      have e2 : ((x:ℤ)).toNat = x := by omega
      rw [e1, e2]
      have hy1 : y + 1 < height := by omega
      interval_cases c
      · exact (diffuse_t3 width height s.buf x y _ _ _ hbuf hx hy1).1
      · exact (diffuse_t3 width height s.buf x y _ _ _ hbuf hx hy1).2.1
      · exact (diffuse_t3 width height s.buf x y _ _ _ hbuf hx hy1).2.2
    · intro h1 h2 h3 h4 c hc
      dsimp only at h1 h2 h3 h4 ⊢
      have e1 : ((y:ℤ) + 1).toNat = y + 1 := by omega
      have e2 : ((x:ℤ) + 1).toNat = x + 1 := by omega
      rw [e1, e2]
      have hx1 : x + 1 < width := by omega
      have hy1 : y + 1 < height := by omega
      interval_cases c
      · exact (diffuse_t4 width height s.buf x y _ _ _ hbuf hx1 hy1).1
      · exact (diffuse_t4 width height s.buf x y _ _ _ hbuf hx1 hy1).2.1
      · exact (diffuse_t4 width height s.buf x y _ _ _ hbuf hx1 hy1).2.2
  · intro px py hpx hpy hnot c hc
    rw [List.mem_cons, List.mem_cons, List.mem_cons, List.mem_singleton] at hnot
    push_neg at hnot
    obtain ⟨hn1, hn2, hn3, hn4⟩ := hnot
    refine diffuse_unchanged width height s.buf x y _ _ _ (py * width + px) c hc
      ?_ ?_ ?_ ?_
    · intro hxw _ heq
      obtain ⟨hpx', hpy'⟩ := flat_inj px py (x + 1) y width hpx hxw heq
      exact hn1 (Prod.ext (by omega) (by omega))
    · intro hx0 hy1 heq
      obtain ⟨hpx', hpy'⟩ := flat_inj px py (x - 1) (y + 1) width hpx (by omega) heq
      exact hn2 (Prod.ext (by omega) (by omega))
    · intro hxw hy1 heq
      obtain ⟨hpx', hpy'⟩ := flat_inj px py x (y + 1) width hpx hxw heq
      exact hn3 (Prod.ext (by omega) (by omega))
    · intro hxw hy1 heq
      obtain ⟨hpx', hpy'⟩ := flat_inj px py (x + 1) (y + 1) width hpx hxw heq
      exact hn4 (Prod.ext (by omega) (by omega))

/-- Witness for C1: the pixel (0,0) of a 2x2 working buffer at strength
1/2. -/
theorem claim_C1_witness :
    ∃ s', process_pixel 2 2 bwPalette (1 / 2) 0 0
        ⟨[], [(10:ℚ), 10, 10, 250, 250, 250, 10, 10, 10, 250, 250, 250], [0, 0, 0, 0]⟩ =
        .ok s' ∧
      s'.data = [] ∧
      s'.out_idx = ([0, 0, 0, 0] : List Nat).set (0 * 2 + 0)
        (nidx_at [(10:ℚ), 10, 10, 250, 250, 250, 10, 10, 10, 250, 250, 250] (0 * 2 + 0)
          bwPalette) ∧
      (∀ t ∈ ([(((0:Nat):ℤ) + 1, ((0:Nat):ℤ), 7 / 16),
               (((0:Nat):ℤ) - 1, ((0:Nat):ℤ) + 1, 3 / 16),
               (((0:Nat):ℤ), ((0:Nat):ℤ) + 1, 5 / 16),
               (((0:Nat):ℤ) + 1, ((0:Nat):ℤ) + 1, 1 / 16)] : List (ℤ × ℤ × ℚ)),
        0 ≤ t.1 → 0 ≤ t.2.1 → t.1 < ((2:Nat):ℤ) → t.2.1 < ((2:Nat):ℤ) →
        ∀ c, c < 3 →
          buf_chan s'.buf (t.2.1.toNat * 2 + t.1.toNat) c =
            clamp_u8 (buf_chan [(10:ℚ), 10, 10, 250, 250, 250, 10, 10, 10, 250, 250, 250]
                (t.2.1.toNat * 2 + t.1.toNat) c +
              (buf_chan [(10:ℚ), 10, 10, 250, 250, 250, 10, 10, 10, 250, 250, 250]
                  (0 * 2 + 0) c -
                chanv (bwPalette.getD
                  (nidx_at [(10:ℚ), 10, 10, 250, 250, 250, 10, 10, 10, 250, 250, 250]
                    (0 * 2 + 0) bwPalette) (0, 0, 0)) c) * (1 / 2) * t.2.2)) ∧
      (∀ px py : Nat, px < 2 → py < 2 →
        ((px:ℤ), (py:ℤ)) ∉ ([(((0:Nat):ℤ) + 1, ((0:Nat):ℤ)),
          (((0:Nat):ℤ) - 1, ((0:Nat):ℤ) + 1), (((0:Nat):ℤ), ((0:Nat):ℤ) + 1),
          (((0:Nat):ℤ) + 1, ((0:Nat):ℤ) + 1)] : List (ℤ × ℤ)) →
        ∀ c, c < 3 →
          buf_chan s'.buf (py * 2 + px) c =
            buf_chan [(10:ℚ), 10, 10, 250, 250, 250, 10, 10, 10, 250, 250, 250]
              (py * 2 + px) c) :=
  claim_C1 2 2 bwPalette (1 / 2)
    ⟨[], [(10:ℚ), 10, 10, 250, 250, 250, 10, 10, 10, 250, 250, 250], [0, 0, 0, 0]⟩ 0 0
    (by decide) (by decide) (by decide) (by decide) (by decide)

/-- Spec section 8 end-to-end scenario, strength 0: sanity check of the
embedding. -/
example :
    quant_indices ⟨2, 2, [(10, 10, 10), (250, 250, 250), (10, 10, 10), (250, 250, 250)]⟩
      bwPalette 0 = [0, 1, 0, 1] := by decide

example : deviation_count rampImage bwPalette (3 / 16) = 2 := by decide

example : deviation_count rampImage bwPalette (1 / 4) = 1 := by decide

end ImageConverter
